import Mathlib

/-!
Shallow embedding of the Pixel Plagiarist game core (src/game_logic/), the
room/game phase coordinator of a multiplayer drawing game.  Python dicts are
modelled as association lists (`List (String × _)`) whose keys are unique in
every reachable state; machine-level floats are modelled as exact rationals;
fallible code paths (KeyError / AttributeError / ZeroDivisionError) return
`Option`.  External effects (socket emissions) are returned as event lists;
database calls have no effect on in-room state and are dropped, except the
lookup performed by `add_player`, which is passed in as an argument.
Randomized shuffles are passed in as explicit oracle arguments.
-/

set_option maxRecDepth 4000

namespace PixelPlagiarist

/-- Game phase, mirroring the phase strings used by `game_state.py`
("waiting", "betting", "drawing", "copying", "voting", "results",
"ended_early"). -/
inductive Phase
  | waiting
  | betting
  | drawing
  | copying
  | voting
  | results
  | endedEarly
  deriving DecidableEq

/-- Per-player in-memory record created by `GameStateGL.add_player`. -/
structure Player where
  username : String
  balance : ℚ
  stake : ℚ
  connected : Bool
  hasDrawnOriginal : Bool
  hasCopied : Bool
  copiesToMake : List String
  completedCopies : Nat
  votesCast : Nat
  hasBet : Bool
  deriving DecidableEq

/-- Entry type inside a drawing set ('original' or 'copy'). -/
inductive DrawingType
  | original
  | copy
  deriving DecidableEq

/-- One entry of a drawing set, as built by
`VotingPhase._create_drawing_sets`. -/
structure Drawing where
  id : String
  playerId : String
  type : DrawingType
  targetId : Option String
  drawing : String
  deriving DecidableEq

/-- A drawing set: one original plus the associated copies, the unit of
voting. -/
structure DrawingSet where
  originalId : String
  drawings : List Drawing
  deriving DecidableEq

/-- Which callback the single pending phase timer would invoke
(`threading.Timer` callbacks registered by each phase handler). -/
inductive TimerKind
  | toDrawing
  | toCopying
  | toVoting
  | nextVotingSet
  deriving DecidableEq

/-- Socket emissions, reduced to the identity of the event and its
addressee where relevant. -/
inductive Event
  | phaseChangedDrawing (pid : String)
  | phaseTimer
  | originalSubmitted (pid : String)
  | earlyPhaseAdvance
  | copyingPhaseMsg (pid : String)
  | phaseChangedCopying
  | copySubmitted (pid target : String)
  | votingRound (pid : String)
  | votingRoundExcluded (pid : String)
  | voteCast (pid : String)
  | gameResults
  | gameEndedEarly
  | betPlaced (pid : String)
  deriving DecidableEq

/-- The complete per-room mutable state: the fields of `GameStateGL`
together with the per-game flags owned by its phase-handler and
scoring-engine components (one of each per game instance).  `minStake` is
the field of the legacy game variant read by `BettingPhase.place_bet`. -/
structure GameState where
  phase : Phase
  players : List (String × Player)
  prizePerPlayer : ℚ
  entryFee : ℚ
  minStake : ℚ
  minPlayers : Nat
  maxPlayers : Nat
  playerPrompts : List (String × String)
  originalDrawings : List (String × String)
  copiedDrawings : List (String × List (String × String))
  copyAssignments : List (String × List String)
  votes : List (Nat × List (String × String))
  idxCurrentDrawingSet : Nat
  drawingSets : List DrawingSet
  percentagePenalties : List (String × ℚ)
  playerBalancesBeforeGame : List (String × ℚ)
  phaseTimerRef : Option TimerKind
  joinCountdownActive : Bool
  copyingPhaseStarted : Bool
  assignmentsMade : Bool
  drawingSetsCreated : Bool
  currentSetStarted : Bool
  resultsCalculated : Bool
  deriving DecidableEq

/-- Dict read `d.get(k)`: the value bound to the first occurrence of the
key, if any. -/
def alookup {α β : Type} [DecidableEq α] (k : α) : List (α × β) → Option β
  | [] => none
  | q :: rest => if q.1 = k then some q.2 else alookup k rest

/-- Dict write `d[k] = v`: replace the value when the key is present,
append a fresh binding otherwise. -/
def assocSet {α β : Type} [DecidableEq α] (k : α) (v : β) (l : List (α × β)) :
    List (α × β) :=
  if (alookup k l).isSome then
    l.map (fun q => if q.1 = k then (q.1, v) else q)
  else
    l ++ [(k, v)]

/-- Dict in-place update `d[k] = f d[k]` for a key assumed present; a no-op
when the key is absent. -/
def updAssoc {α β : Type} [DecidableEq α] (k : α) (f : β → β) (l : List (α × β)) :
    List (α × β) :=
  l.map (fun q => if q.1 = k then (q.1, f q.2) else q)

/-- Balance mutation `players[pid].balance += amt`. -/
def addBal (pid : String) (amt : ℚ) (ps : List (String × Player)) :
    List (String × Player) :=
  updAssoc pid (fun p : Player => { p with balance := p.balance + amt }) ps

/-- List of keys of an association list. -/
def keysOf {α β : Type} (l : List (α × β)) : List α :=
  l.map Prod.fst

/-- Keys of a modelled dict are unique (inherent in Python dicts). -/
def KeysNodup {α β : Type} (l : List (α × β)) : Prop :=
  (keysOf l).Nodup

/-- Sum of all in-memory balances of the roster. -/
def sumBalances (ps : List (String × Player)) : ℚ :=
  (ps.map (fun q => q.2.balance)).sum

/-! ## Scoring engine (`src/game_logic/scoring_engine.py`) -/

/-- Number of votes in a set naming a given drawing id
(`vote_counts[drawing_id]` of `calculate_drawing_set_scores`: the counter
is initialized to 0 for every drawing of the set and incremented once per
vote whose chosen id is a key, so it equals the plain count of votes for
that id). -/
def voteCountFor (votesForSet : List (String × String)) (did : String) : Nat :=
  (votesForSet.filter (fun kv => kv.2 = did)).length

/-- Score mutation `scores[pid] += pts`. -/
def addScore (pid : String) (pts : ℚ) (sc : List (String × ℚ)) :
    List (String × ℚ) :=
  updAssoc pid (fun v => v + pts) sc

/-- `ScoringEngine.calculate_drawing_set_scores` restricted to the data
the rest of the engine consumes: the per-player `scores` dict.  100 points
per vote to an original's author, 150 per vote to a copy's author (authors
who left the roster are skipped), 25 to each remaining voter who picked
the true original.  `none` models the IndexError on an out-of-range set
index. -/
def calculateDrawingSetScores (setIdx : Nat) (s : GameState) :
    Option (List (String × ℚ)) :=
  match s.drawingSets.get? setIdx with
  | none => none
  | some dset =>
    let votesForSet := (alookup setIdx s.votes).getD []
    let scores0 : List (String × ℚ) := s.players.map (fun q => (q.1, (0 : ℚ)))
    let scores1 := dset.drawings.foldl (fun sc d =>
        if (alookup d.playerId s.players).isSome then
          addScore d.playerId
            ((voteCountFor votesForSet d.id : ℚ) *
              (if d.type = DrawingType.original then 100 else 150)) sc
        else sc) scores0
    let originalDrawingId := "original_" ++ dset.originalId
    let scores2 := votesForSet.foldl (fun sc v =>
        if (alookup v.1 s.players).isSome ∧ v.2 = originalDrawingId then
          addScore v.1 25 sc
        else sc) scores1
    some scores2

/-- Distribution loop of `ScoringEngine.distribute_tokens`
(`for player_id in self.game.players`): credit each roster member their
score share of `prize_per_player`; `none` models the KeyError raised when
a roster member has no entry in `scores`. -/
def engineLoop (scores : List (String × ℚ)) (total prize : ℚ) :
    List String → List (String × Player) → Option (List (String × Player))
  | [], ps => some ps
  | pid :: rest, ps =>
    match alookup pid scores with
    | none => none
    | some sc => engineLoop scores total prize rest (addBal pid (sc / total * prize) ps)

/-- The set of artists of a drawing set
(`artists_in_set = set of every entry author`, deduplicated). -/
def setArtists (dset : DrawingSet) : List String :=
  (dset.drawings.map (fun d => d.playerId)).dedup

/-- Dict comprehension `artists_stakes = (pid : players[pid].stake for pid
in artists)`: `none` models the KeyError when an artist left the roster. -/
def stakesOf : List String → List (String × Player) → Option (List (String × ℚ))
  | [], _ => some []
  | a :: rest, ps =>
    match alookup a ps with
    | none => none
    | some p => (stakesOf rest ps).map (fun l => (a, p.stake) :: l)

/-- `ScoringEngine.distribute_tokens` (scoring_engine.py): a no-op when the
roster is empty or the set's total score is zero; otherwise every roster
member is credited `scores[pid] / total_score * prize_per_player`.  The
artists' stakes are looked up (KeyError → `none` when an artist left the
roster) but otherwise unused beyond a non-emptiness test. -/
def distributeTokensEngine (setIdx : Nat) (scores : List (String × ℚ))
    (s : GameState) : Option GameState :=
  if s.players = [] then some s
  else
    let totalScore := (scores.map (fun q => q.2)).sum
    if totalScore = 0 then some s
    else
      match s.drawingSets.get? setIdx with
      | none => none
      | some dset =>
        match stakesOf (setArtists dset) s.players with
        | none => none
        | some artistsStakes =>
          if artistsStakes = [] then some s
          else
            (engineLoop scores totalScore s.prizePerPlayer (keysOf s.players)
                s.players).map (fun ps => { s with players := ps })

/-- `ScoringEngine.calculate_results`: guarded by `results_calculated`,
sets phase to Results, then for each drawing set computes the scores and
distributes tokens, and finally emits the room-wide `game_results`
settlement. -/
def calculateResults (s : GameState) : Option (GameState × List Event) :=
  if s.resultsCalculated then some (s, [])
  else
    match (List.range s.drawingSets.length).foldlM
        (fun (st : GameState) (i : Nat) =>
          match calculateDrawingSetScores i st with
          | none => none
          | some scores => distributeTokensEngine i scores st)
        { s with phase := Phase.results, resultsCalculated := true } with
    | none => none
    | some s2 => some (s2, [Event.gameResults])

/-! ## Voting phase (`src/game_logic/voting_phase.py`) -/

/-- `VotingPhase.get_eligible_voters_for_set`: roster members who authored
no entry of the set. -/
def getEligibleVotersForSet (dset : DrawingSet) (s : GameState) : List String :=
  let excluded := dset.drawings.map (fun d => d.playerId)
  (keysOf s.players).filter (fun pid => decide (pid ∉ excluded))

/-- Rejection reasons of `VotingPhase._validate_vote`, in the source's
wording. -/
inductive VoteError
  | wrongPhase
  | playerNotInGame
  | invalidSetIndex
  | playerNotEligible
  | alreadyVoted
  | invalidDrawingId
  deriving DecidableEq

/-- `VotingPhase._validate_vote`: the checks in source order — phase,
roster membership, set-index range, eligibility, duplicate vote, drawing
id membership.  `none` means the vote is valid. -/
def validateVote (pid did : String) (s : GameState) : Option VoteError :=
  if s.phase ≠ Phase.voting then some VoteError.wrongPhase
  else if (alookup pid s.players).isNone then some VoteError.playerNotInGame
  else
    match s.drawingSets.get? s.idxCurrentDrawingSet with
    | none => some VoteError.invalidSetIndex
    | some cur =>
      if ¬ (getEligibleVotersForSet cur s).contains pid then
        some VoteError.playerNotEligible
      else if (alookup pid ((alookup s.idxCurrentDrawingSet s.votes).getD [])).isSome then
        some VoteError.alreadyVoted
      else if ¬ (cur.drawings.map (fun d => d.id)).contains did then
        some VoteError.invalidDrawingId
      else none

/-- Blank 400x300 white canvas synthesized by `_create_drawing_sets` for a
missing copy (opaque stand-in for the generated base64 PNG payload). -/
def blankCanvas : String := "data:image/png;base64,BLANK_CANVAS"

/-- One drawing set of `VotingPhase._create_drawing_sets`: the original
entry plus, for every player assigned to copy this original, either their
submitted copy or a synthesized blank; `sh` is the in-set shuffle oracle
(`random.shuffle`). -/
def buildDrawingSet (sh : List Drawing → List Drawing) (s : GameState)
    (originalPlayerId payload : String) : DrawingSet :=
  let original : Drawing :=
    { id := "original_" ++ originalPlayerId, playerId := originalPlayerId,
      type := DrawingType.original, targetId := none, drawing := payload }
  let expectedCopiers :=
    (s.copyAssignments.filter (fun q => q.2.contains originalPlayerId)).map
      (fun q => q.1)
  let copies := expectedCopiers.map (fun cid =>
    match (alookup cid s.copiedDrawings).bind (alookup originalPlayerId) with
    | some copyPayload =>
      { id := "copy_" ++ cid ++ "_" ++ originalPlayerId, playerId := cid,
        type := DrawingType.copy, targetId := some originalPlayerId,
        drawing := copyPayload }
    | none =>
      { id := "copy_" ++ cid ++ "_" ++ originalPlayerId, playerId := cid,
        type := DrawingType.copy, targetId := some originalPlayerId,
        drawing := blankCanvas })
  { originalId := originalPlayerId, drawings := sh (original :: copies) }

/-- `VotingPhase._create_drawing_sets`: one set per submitted original, in
submission order. -/
def createDrawingSets (sh : List Drawing → List Drawing) (s : GameState) :
    GameState :=
  { s with drawingSets :=
      s.originalDrawings.map (fun q => buildDrawingSet sh s q.1 q.2) }

/-- `VotingPhase.start_voting_on_set`: guarded by `current_set_started`;
proceeds to Scoring when the cursor is past the last set, otherwise
unicasts the set to eligible voters and an exclusion notice to the rest,
and arms the per-set timer. -/
def startVotingOnSet (s : GameState) : Option (GameState × List Event) :=
  if s.currentSetStarted then some (s, [])
  else
    match s.drawingSets.get? s.idxCurrentDrawingSet with
    | none => calculateResults s
    | some cur =>
      let s1 := { s with currentSetStarted := true }
      let elig := getEligibleVotersForSet cur s1
      let ev := (keysOf s1.players).map (fun pid =>
          if elig.contains pid then Event.votingRound pid
          else Event.votingRoundExcluded pid)
      let s2 := { s1 with phaseTimerRef := some TimerKind.nextVotingSet }
      some (s2, ev ++ [Event.phaseTimer])

/-- `VotingPhase.next_voting_set`: clear the per-set guard, advance the
cursor, start the next set. -/
def nextVotingSet (s : GameState) : Option (GameState × List Event) :=
  startVotingOnSet
    { s with currentSetStarted := false,
             idxCurrentDrawingSet := s.idxCurrentDrawingSet + 1 }

/-- `VotingPhase.check_early_advance`: when every eligible voter of the
current set has voted, or there are none, cancel the timer and advance to
the next set. -/
def checkEarlyAdvanceVoting (s : GameState) : Option (GameState × List Event) :=
  match s.drawingSets.get? s.idxCurrentDrawingSet with
  | none => some (s, [])
  | some cur =>
    let elig := getEligibleVotersForSet cur s
    let setVotes := (alookup s.idxCurrentDrawingSet s.votes).getD []
    let allVoted := elig.all (fun v => (alookup v setVotes).isSome)
    if allVoted || elig.length == 0 then
      match nextVotingSet { s with phaseTimerRef := none } with
      | none => none
      | some (s2, ev) => some (s2, Event.earlyPhaseAdvance :: ev)
    else some (s, [])

/-- `VotingPhase.submit_vote`: validate, then record the vote under the
current set index, bump the voter's `votes_cast`, broadcast, and (when
`check_early_advance` is set, as in the production call sites) run the
early-advance check. -/
def submitVote (pid did : String) (checkEarly : Bool) (s : GameState) :
    Option (Bool × GameState × List Event) :=
  match validateVote pid did s with
  | some _ => some (false, s, [])
  | none =>
    let setIdx := s.idxCurrentDrawingSet
    let inner := (alookup setIdx s.votes).getD []
    let s1 := { s with
      votes := assocSet setIdx (assocSet pid did inner) s.votes,
      players := updAssoc pid
        (fun p : Player => { p with votesCast := p.votesCast + 1 }) s.players }
    if checkEarly then
      match checkEarlyAdvanceVoting s1 with
      | none => none
      | some (s2, ev) => some (true, s2, Event.voteCast pid :: ev)
    else some (true, s1, [Event.voteCast pid])

/-- Modelled from the spec: `VotingPhase.reset_for_new_game` is invoked by
`GameStateGL.start_game` but is missing from the voting handler's source;
per §4.5 the once-per-game guards (set construction, per-set start) are
cleared for a fresh game, matching the copying handler's reset. -/
def votingResetForNewGame (s : GameState) : GameState :=
  { s with drawingSetsCreated := false, currentSetStarted := false }

/-- `VotingPhase.start_phase`: skipped after an early end; guarded against
duplicate starts; sets phase to Voting, resets the cursor, constructs the
drawing sets once per game, and starts voting on the first set. -/
def votingStartPhase (sh : List Drawing → List Drawing) (s : GameState) :
    Option (GameState × List Event) :=
  if s.phase = Phase.endedEarly then some (s, [])
  else if s.phase = Phase.voting ∧ s.drawingSetsCreated then some (s, [])
  else
    let s1 := { s with phase := Phase.voting, idxCurrentDrawingSet := 0 }
    let s2 :=
      if ¬ s1.drawingSetsCreated then
        { createDrawingSets sh s1 with drawingSetsCreated := true }
      else s1
    startVotingOnSet s2

/-! ## Copying phase (`src/game_logic/copying_phase.py`) -/

/-- `CopyingPhase._assign_copying_tasks`: `order` is the shuffled roster
(`random.shuffle` oracle); each player is assigned the next one (exactly 3
players) or two (otherwise) players cyclically, and their
`copies_to_make` list is set accordingly. -/
def assignCopyingTasks (order : List String) (s : GameState) : GameState :=
  let n := order.length
  let copiesPerPlayer := if n = 3 then 1 else 2
  let assigns := order.enum.map (fun pi =>
      (pi.2, (List.range copiesPerPlayer).map
        (fun i => order.getD ((pi.1 + 1 + i) % n) "")))
  let players' := assigns.foldl
      (fun ps a => updAssoc a.1 (fun p : Player => { p with copiesToMake := a.2 }) ps)
      s.players
  { s with copyAssignments := assigns, players := players' }

/-- `CopyingPhase.start_phase`: skipped after an early end; guarded
against duplicate calls within the same game; sets phase to Copying,
computes the copy assignments once per game, resets per-phase copy
progress, unicasts the assignments, broadcasts the phase change, and arms
the phase timer. -/
def copyingStartPhase (order : List String) (s : GameState) :
    GameState × List Event :=
  if s.phase = Phase.endedEarly then (s, [])
  else if s.copyingPhaseStarted ∧ s.phase = Phase.copying then (s, [])
  else
    let s1 := { s with phase := Phase.copying, copyingPhaseStarted := true }
    let s2 :=
      if ¬ s1.assignmentsMade then
        { assignCopyingTasks order s1 with assignmentsMade := true }
      else s1
    let s3 := { s2 with
      players := s2.players.map (fun q : String × Player => (q.1, { q.2 with completedCopies := 0 })),
      copiedDrawings := [] }
    let ev := (keysOf s3.copyAssignments).map Event.copyingPhaseMsg
        ++ [Event.phaseChangedCopying]
    let s4 := { s3 with phaseTimerRef := some TimerKind.toVoting }
    (s4, ev ++ [Event.phaseTimer])

/-- Required copy count of a player in `CopyingPhase.check_early_advance`:
only assigned targets that actually have an original submission count. -/
def copyingRequired (s : GameState) (p : Player) : Nat :=
  (p.copiesToMake.filter (fun tid => (alookup tid s.originalDrawings).isSome)).length

/-- `CopyingPhase.check_early_advance`: when every player's completed
copies reach their required count, cancel the timer and start the voting
phase. -/
def checkEarlyAdvanceCopying (sh : List Drawing → List Drawing)
    (s : GameState) : Option (GameState × List Event) :=
  let allCopied := s.players.all
      (fun q => decide (copyingRequired s q.2 ≤ q.2.completedCopies))
  if allCopied then
    match votingStartPhase sh { s with phaseTimerRef := none } with
    | none => none
    | some (s2, ev) => some (s2, Event.earlyPhaseAdvance :: ev)
  else some (s, [])

/-- `CopyingPhase.submit_drawing`: accepted whenever the player is in the
roster and the phase is Copying — the target id is NOT validated against
the player's assignments; the copy is stored under
`copied_drawings[pid][target]`, `completed_copies` is incremented, and
the early-advance check runs. -/
def copyingSubmitDrawing (sh : List Drawing → List Drawing)
    (pid targetId payload : String) (checkEarly : Bool) (s : GameState) :
    Option (Bool × GameState × List Event) :=
  if (alookup pid s.players).isSome ∧ s.phase = Phase.copying then
    let inner := (alookup pid s.copiedDrawings).getD []
    let s1 := { s with
      copiedDrawings := assocSet pid (assocSet targetId payload inner) s.copiedDrawings,
      players := updAssoc pid
        (fun p : Player => { p with completedCopies := p.completedCopies + 1 }) s.players }
    if checkEarly then
      match checkEarlyAdvanceCopying sh s1 with
      | none => none
      | some (s2, ev) => some (true, s2, Event.copySubmitted pid targetId :: ev)
    else some (true, s1, [Event.copySubmitted pid targetId])
  else some (false, s, [])

/-! ## Drawing phase (`src/game_logic/drawing_phase.py`) -/

/-- `DrawingPhase.start_phase`: sets phase to Drawing (no reentrancy
guard), escrows the ambient stake (`prize_per_player`) from every player
who has not wagered yet, unicasts the per-player phase change with the
prompt, and arms the phase timer. -/
def drawingStartPhase (s : GameState) : GameState × List Event :=
  let s1 := { s with phase := Phase.drawing }
  let s2 := { s1 with players := s1.players.map (fun q : String × Player =>
      if q.2.stake = 0 then
        (q.1, { q.2 with stake := s1.prizePerPlayer,
                         balance := q.2.balance - s1.prizePerPlayer })
      else q) }
  let ev := (keysOf s2.players).map Event.phaseChangedDrawing
  let s3 := { s2 with phaseTimerRef := some TimerKind.toCopying }
  (s3, ev ++ [Event.phaseTimer])

/-- `DrawingPhase.check_early_advance`: when every roster member has drawn,
cancel the timer and start the copying phase (whose assignment shuffle is
the `order` oracle). -/
def checkEarlyAdvanceDrawing (order : List String) (s : GameState) :
    GameState × List Event :=
  let allDrawn := s.players.all (fun q => q.2.hasDrawnOriginal)
  if allDrawn then
    let r := copyingStartPhase order { s with phaseTimerRef := none }
    (r.1, Event.earlyPhaseAdvance :: r.2)
  else (s, [])

/-- `DrawingPhase.submit_drawing`: rejected on wrong phase, unknown player
or duplicate submission; otherwise the original is stored, the flag set,
an acknowledgement broadcast, and the early-advance check run. -/
def drawingSubmitDrawing (order : List String) (pid payload : String)
    (checkEarly : Bool) (s : GameState) : Bool × GameState × List Event :=
  if s.phase ≠ Phase.drawing then (false, s, [])
  else if (alookup pid s.players).isNone then (false, s, [])
  else if ((alookup pid s.players).map Player.hasDrawnOriginal).getD false then
    (false, s, [])
  else
    let s1 := { s with
      originalDrawings := assocSet pid payload s.originalDrawings,
      players := updAssoc pid
        (fun p : Player => { p with hasDrawnOriginal := true }) s.players }
    if checkEarly then
      let r := checkEarlyAdvanceDrawing order s1
      (true, r.1, Event.originalSubmitted pid :: r.2)
    else (true, s1, [Event.originalSubmitted pid])

/-! ## Game lifecycle (`src/game_logic/game_state.py`) -/

/-- `GameStateGL.end_game_early`: cancel all timers; when the roster is
below the minimum, credit every remaining player's positive stake back,
mark the phase EndedEarly, and (when a socket is supplied) broadcast the
settlement.  Stakes are not zeroed after the refund. -/
def endGameEarly (emitEvents : Bool) (s : GameState) : GameState × List Event :=
  let s1 := { s with phaseTimerRef := none, joinCountdownActive := false }
  if s1.players.length < s1.minPlayers then
    let s2 := { s1 with players := s1.players.map (fun q : String × Player =>
        if q.2.stake > 0 then (q.1, { q.2 with balance := q.2.balance + q.2.stake })
        else q) }
    let s3 := { s2 with phase := Phase.endedEarly }
    (s3, if emitEvents then [Event.gameEndedEarly] else [])
  else (s1, [])

/-- `GameStateGL.remove_player`: delete the player (their balance is
persisted externally when the game is in progress — no in-room effect),
then end the game early when the roster dropped below the minimum and the
phase is neither Waiting nor Results (`end_game_early` is invoked without
a socket, so nothing is emitted). -/
def removePlayer (pid : String) (s : GameState) : GameState × List Event :=
  let s1 :=
    if (alookup pid s.players).isSome then
      { s with players := s.players.filter (fun q => decide (q.1 ≠ pid)) }
    else s
  if s1.players.length < s1.minPlayers ∧ s1.phase ≠ Phase.waiting
      ∧ s1.phase ≠ Phase.results then
    endGameEarly false s1
  else (s1, [])

/-- Character class kept by the username sanitizer
(`re.sub` removing everything outside alphanumerics, underscore,
whitespace and dash; Python's unicode word class is approximated by
`Char.isAlphanum`). -/
def allowedUsernameChar (c : Char) : Bool :=
  c.isAlphanum || c = '_' || c.isWhitespace || c = '-'

/-- Username sanitization of `GameStateGL.add_player` after the emptiness
check: restricted character set, truncated to 32 characters. -/
def sanitizeUsername (trimmed : String) : String :=
  (String.mk (trimmed.data.filter allowedUsernameChar)).take 32

/-- `GameStateGL.add_player`: after trimming, an empty username is
rejected; a player already in the roster only has their username updated;
a full room, a failed database lookup (`dbBalance = none`), or a stored
balance below `prize_per_player + entry_fee` reject the join; otherwise
the balance snapshot is stored and a fresh player record appended. -/
def addPlayer (dbBalance : Option ℚ) (pid username : String) (s : GameState) :
    Bool × GameState :=
  let trimmed := username.trim
  if trimmed = "" then (false, s)
  else
    let uname := sanitizeUsername trimmed
    if (alookup pid s.players).isSome then
      let players' :=
        updAssoc pid (fun p : Player => { p with username := uname }) s.players
      (true, { s with players := players' })
    else if s.maxPlayers ≤ s.players.length then (false, s)
    else
      match dbBalance with
      | none => (false, s)
      | some bal =>
        if bal < s.prizePerPlayer + s.entryFee then (false, s)
        else
          (true, { s with
            playerBalancesBeforeGame := assocSet pid bal s.playerBalancesBeforeGame,
            players := s.players ++ [(pid,
              { username := uname, balance := bal, stake := 0, connected := true,
                hasDrawnOriginal := false, hasCopied := false, copiesToMake := [],
                completedCopies := 0, votesCast := 0, hasBet := false })] })

/-- `GameStateGL.start_game`: refused below the minimum roster; snapshots
every balance and deducts the entry fee, stops the joining countdown,
resets all per-game state and handler guards, sets phase to Drawing,
assigns one prompt per player cycling through `availablePrompts` (the
shuffled prompt list; `none` models the ZeroDivisionError on an empty
list), then enters the drawing phase.  The trailing room-registry call
creates a fresh default room and does not touch this game. -/
def startGame (availablePrompts : List String) (s : GameState) :
    Option (GameState × List Event) :=
  if s.players.length < s.minPlayers then some (s, [])
  else
    let s1 := { s with
      playerBalancesBeforeGame := s.players.foldl
        (fun acc (q : String × Player) => assocSet q.1 q.2.balance acc)
        s.playerBalancesBeforeGame,
      players := s.players.map
        (fun q : String × Player => (q.1, { q.2 with balance := q.2.balance - s.entryFee })) }
    let s2 := { s1 with
      joinCountdownActive := false,
      originalDrawings := [], copiedDrawings := [], copyAssignments := [],
      votes := [], idxCurrentDrawingSet := 0, drawingSets := [],
      percentagePenalties := [],
      copyingPhaseStarted := false, assignmentsMade := false }
    let s3 := votingResetForNewGame s2
    let s4 := { s3 with resultsCalculated := false, phase := Phase.drawing }
    if availablePrompts.isEmpty then none
    else
      let prompts := (keysOf s4.players).enum.map (fun ip =>
          (ip.2, availablePrompts.getD (ip.1 % availablePrompts.length) ""))
      some (drawingStartPhase { s4 with playerPrompts := prompts })

/-! ## Betting phase (`src/game_logic/betting_phase.py`, legacy variant) -/

/-- `BettingPhase.place_bet`: rejected on wrong phase, unknown player,
repeated bet, a stake below the room minimum, or a stake exceeding the
player's balance; on success the stake is deducted and recorded, and when
everyone has bet the drawing phase starts early. -/
def placeBet (pid : String) (stake : ℚ) (checkEarly : Bool) (s : GameState) :
    Bool × GameState × List Event :=
  if s.phase ≠ Phase.betting then (false, s, [])
  else
    match alookup pid s.players with
    | none => (false, s, [])
    | some p =>
      if p.hasBet then (false, s, [])
      else if stake < s.minStake then (false, s, [])
      else if p.balance < stake then (false, s, [])
      else
        let s1 := { s with players := updAssoc pid (fun q : Player =>
            { q with balance := q.balance - stake, stake := stake,
                     hasBet := true }) s.players }
        if checkEarly then
          if s1.players.all (fun q => q.2.hasBet) then
            let r := drawingStartPhase { s1 with phaseTimerRef := none }
            (true, r.1, Event.betPlaced pid :: Event.earlyPhaseAdvance :: r.2)
          else (true, s1, [Event.betPlaced pid])
        else (true, s1, [Event.betPlaced pid])

/-! ## Legacy scoring engine (`src/game_logic/scoring.py`) -/

/-- Penalty pass of the legacy `distribute_tokens`
(`for player_id in self.game.percentage_penalties`): each penalized artist
loses `excess * penalty` from their excess stake, and the deductions are
accumulated into the penalty pool. -/
def penaltyLoop : List (String × ℚ) → ℚ → List (String × ℚ) → ℚ × List (String × ℚ)
  | [], pool, ex => (pool, ex)
  | pp :: rest, pool, ex =>
    match alookup pp.1 ex with
    | none => penaltyLoop rest pool ex
    | some e => penaltyLoop rest (pool + e * pp.2) (assocSet pp.1 (e - e * pp.2) ex)

/-- Distribution loop of the legacy `distribute_tokens`
(`for player_id in scores`): score share of the pool, plus the even
penalty share, plus the player's remaining excess stake (0 for
non-artists); `none` models the KeyError when a scored player is not in
the roster. -/
def legacyLoop (total pool penaltyDist : ℚ) (excess : List (String × ℚ)) :
    List (String × ℚ) → List (String × Player) → Option (List (String × Player))
  | [], ps => some ps
  | sc :: rest, ps =>
    if (alookup sc.1 ps).isSome then
      legacyLoop total pool penaltyDist excess rest
        (addBal sc.1 (sc.2 / total * pool + penaltyDist + (alookup sc.1 excess).getD 0) ps)
    else none

/-- Legacy `ScoringEngine.distribute_tokens` (scoring.py): the set's pool
is the minimum stake among its artists; each artist contributes
`pool / number_of_artists` and their excess stake above that contribution
is reduced by their accumulated percentage penalty (deductions pooled);
with a nonzero total score, every scored player receives their score
share of the pool, an even share of the penalty pool, and their remaining
excess. -/
def distributeTokensLegacy (setIdx : Nat) (scores : List (String × ℚ))
    (s : GameState) : Option GameState :=
  if s.players = [] then some s
  else
    match s.drawingSets.get? setIdx with
    | none => none
    | some dset =>
      match stakesOf (setArtists dset) s.players with
      | none => none
      | some artistsStakes =>
        match artistsStakes with
        | [] => some s
        | a :: rest =>
          let totalPoolForSet := rest.foldl (fun m q => min m q.2) a.2
          let contributionPerArtist := totalPoolForSet / ((setArtists dset).length : ℚ)
          let excess0 := artistsStakes.map (fun q => (q.1, q.2 - contributionPerArtist))
          let pe := penaltyLoop s.percentagePenalties 0 excess0
          let totalScore := (scores.map (fun q => q.2)).sum
          if totalScore = 0 then some s
          else
            let penaltyDist := pe.1 / (scores.length : ℚ)
            (legacyLoop totalScore totalPoolForSet penaltyDist pe.2 scores
                s.players).map (fun ps => { s with players := ps })

/-! ## Concrete rooms and runs used by witnesses and counterexamples -/

/-- A fresh in-memory player record as `add_player` creates it. -/
def freshPlayer (un : String) (bal : ℚ) : Player :=
  { username := un, balance := bal, stake := 0, connected := true,
    hasDrawnOriginal := false, hasCopied := false, copiesToMake := [],
    completedCopies := 0, votesCast := 0, hasBet := false }

/-- An empty Bronze-tier room: prize (ambient stake) 10, entry fee 5,
minimum 3 and maximum 12 players, as `GameStateGL.__init__` builds it. -/
def emptyRoom : GameState :=
  { phase := Phase.waiting, players := [], prizePerPlayer := 10, entryFee := 5,
    minStake := 10, minPlayers := 3, maxPlayers := 12, playerPrompts := [],
    originalDrawings := [], copiedDrawings := [], copyAssignments := [],
    votes := [], idxCurrentDrawingSet := 0, drawingSets := [],
    percentagePenalties := [], playerBalancesBeforeGame := [],
    phaseTimerRef := none, joinCountdownActive := false,
    copyingPhaseStarted := false, assignmentsMade := false,
    drawingSetsCreated := false, currentSetStarted := false,
    resultsCalculated := false }

/-- A full game run: three players join with balance 100 each (total 300),
the game starts (entry fees 15 total extracted, stakes 30 escrowed at
drawing-phase start), only player A submits an original, the drawing and
copying timers expire, and the single eligible voter B votes for the
original, which advances into Scoring. -/
def c2Run : Option GameState :=
  let s0 := (addPlayer (some 100) "C" "C"
    (addPlayer (some 100) "B" "B"
      (addPlayer (some 100) "A" "A" emptyRoom).2).2).2
  (startGame ["prompt"] s0).bind (fun r1 =>
    let s1 := (drawingSubmitDrawing ["A", "B", "C"] "A" "artA" true r1.1).2.1
    let s2 := (copyingStartPhase ["A", "B", "C"] s1).1
    (votingStartPhase id s2).bind (fun r2 =>
      (submitVote "B" "original_A" true r2.1).map (fun r3 => r3.2.1)))

/-- Pool of a set in the legacy engine: the running minimum of the
artists' stakes (`min(artists_stakes.values())`). -/
def legacyPool (a : String × ℚ) (rest : List (String × ℚ)) : ℚ :=
  rest.foldl (fun m q => min m q.2) a.2

/-- Initial excess stakes of the legacy engine: each artist's stake minus
the per-artist contribution. -/
def legacyExcess0 (stakes : List (String × ℚ)) (contribution : ℚ) :
    List (String × ℚ) :=
  stakes.map (fun q => (q.1, q.2 - contribution))

/-- Total of the penalties deducted from excess stakes by the legacy
engine's penalty pass. -/
def legacyPenaltyPool (pens excess0 : List (String × ℚ)) : ℚ :=
  (pens.map (fun q => (alookup q.1 excess0).getD 0 * q.2)).sum

/-- Drawing set used by the C1 concrete instances: A's original plus B's
copy, so the artists are A (stake 10) and B (stake 30). -/
def c1Set : DrawingSet :=
  { originalId := "A", drawings := [
      { id := "original_A", playerId := "A", type := DrawingType.original,
        targetId := none, drawing := "artA" },
      { id := "copy_B_A", playerId := "B", type := DrawingType.copy,
        targetId := some "A", drawing := "artB" } ] }

/-- Game state for the C1 concrete instances: stakes A=10, B=30, C=10,
all balances 0, no penalties, C voted for the original. -/
def c1State : GameState :=
  { emptyRoom with
    phase := Phase.results,
    players := [("A", { freshPlayer "A" 0 with stake := 10 }),
                ("B", { freshPlayer "B" 0 with stake := 30 }),
                ("C", { freshPlayer "C" 0 with stake := 10 })],
    drawingSets := [c1Set],
    votes := [(0, [("C", "original_A")])] }

/-- Scores of the single set of `c1State` as the engine computes them:
A gets 100 for the vote on the original, C gets the 25 correct-vote
bonus. -/
def c1Scores : List (String × ℚ) := [("A", 100), ("B", 0), ("C", 25)]

/-- Single-player waiting room used by the C2 witness. -/
def c2WitState : GameState :=
  { emptyRoom with players := [("A", freshPlayer "A" 100)] }

/-- Copying-phase room with one submitted original, used to exercise the
voting and scoring guards of C3. -/
def c3VoteState : GameState :=
  { emptyRoom with
    phase := Phase.copying,
    players := [("A", freshPlayer "A" 85), ("B", freshPlayer "B" 85),
                ("C", freshPlayer "C" 85)],
    originalDrawings := [("A", "artA")] }

/-- First voting-phase start on `c3VoteState`. -/
def c3First : GameState × List Event :=
  (votingStartPhase id c3VoteState).getD (emptyRoom, [])

/-- First results calculation on `c1State`. -/
def c3ResFirst : GameState × List Event :=
  (calculateResults c1State).getD (emptyRoom, [])

/-- Drawing-phase room with three players, each with an escrowed stake of
10 and balance 85, used to exhibit the double refund on repeated
disconnects. -/
def c4State : GameState :=
  { emptyRoom with
    phase := Phase.drawing,
    players := [("A", { freshPlayer "A" 85 with stake := 10 }),
                ("B", { freshPlayer "B" 85 with stake := 10 }),
                ("C", { freshPlayer "C" 85 with stake := 10 })] }

/-- Transcription of C5's stated rejection order: WrongPhase,
UnknownPlayer, SetIndexExhausted, NotEligible (the player authored an
entry in this set), AlreadyVoted (a recorded vote exists for this
set_index), UnknownDrawingId (not among this set's entry ids). -/
def claimedVoteCheck (pid did : String) (s : GameState) : Option VoteError :=
  if s.phase ≠ Phase.voting then some VoteError.wrongPhase
  else if pid ∉ keysOf s.players then some VoteError.playerNotInGame
  else if s.drawingSets.length ≤ s.idxCurrentDrawingSet then
    some VoteError.invalidSetIndex
  else
    let cur := s.drawingSets.getD s.idxCurrentDrawingSet
      { originalId := "", drawings := [] }
    if pid ∈ cur.drawings.map (fun d => d.playerId) then
      some VoteError.playerNotEligible
    else if pid ∈ keysOf ((alookup s.idxCurrentDrawingSet s.votes).getD []) then
      some VoteError.alreadyVoted
    else if did ∉ cur.drawings.map (fun d => d.id) then
      some VoteError.invalidDrawingId
    else none

/-- Voting-phase room in which player C has already voted for the
original of the single set. -/
def c5State : GameState :=
  { emptyRoom with
    phase := Phase.voting,
    players := [("A", freshPlayer "A" 85), ("B", freshPlayer "B" 85),
                ("C", freshPlayer "C" 85)],
    drawingSets := [c1Set],
    votes := [(0, [("C", "original_A")])] }

/-- Copying-phase room: every player is assigned one copy target, and B
and C have submitted originals (so only A and B have a nonzero required
copy count). -/
def c6State : GameState :=
  { emptyRoom with
    phase := Phase.copying,
    players := [("A", { freshPlayer "A" 85 with copiesToMake := ["B"] }),
                ("B", { freshPlayer "B" 85 with copiesToMake := ["C"] }),
                ("C", { freshPlayer "C" 85 with copiesToMake := ["A"] })],
    copyAssignments := [("A", ["B"]), ("B", ["C"]), ("C", ["A"])],
    originalDrawings := [("B", "artB"), ("C", "artC")] }

/-- Invariant: no recorded voter of any drawing set authored an entry of
that set. -/
def NoAuthorVoted (s : GameState) : Prop :=
  ∀ (i : Nat) (dset : DrawingSet), s.drawingSets.get? i = some dset →
    ∀ pid ∈ keysOf ((alookup i s.votes).getD []),
      pid ∉ dset.drawings.map (fun d => d.playerId)

/-- Voting-phase room identical to `c5State` but with no votes recorded
yet. -/
def c7Fresh : GameState := { c5State with votes := [] }

/-- Result of C's successful vote on `c7Fresh`. -/
def c7R : Bool × GameState × List Event :=
  (submitVote "C" "original_A" true c7Fresh).getD (false, emptyRoom, [])

/-- The single player of `c8Bet`: balance 50, no stake, no bet yet. -/
def c8Player : Player :=
  { username := "A", balance := 50, stake := 0, connected := true,
    hasDrawnOriginal := false, hasCopied := false, copiesToMake := [],
    completedCopies := 0, votesCast := 0, hasBet := false }

/-- A one-player room sitting in the betting phase. -/
def c8Bet : GameState :=
  { emptyRoom with
    phase := Phase.betting,
    players := [("A", c8Player)] }

/-- Player record of the concrete C9 room. -/
def c9P (un : String) (hasOrig : Bool) : Player :=
  { username := un, balance := 85, stake := 10, connected := true,
    hasDrawnOriginal := hasOrig, hasCopied := false, copiesToMake := [],
    completedCopies := 0, votesCast := 0, hasBet := false }

/-- A four-player drawing-phase room (minimum three) in which D has
already submitted an original. -/
def c9State : GameState :=
  { emptyRoom with
    phase := Phase.drawing,
    players := [("A", c9P "A" false), ("B", c9P "B" false),
      ("C", c9P "C" false), ("D", c9P "D" true)],
    originalDrawings := [("D", "artD")] }

/-! ## Association-list lemmas -/

section AssocLemmas

variable {α β : Type} [DecidableEq α]

theorem alookup_isSome_iff {l : List (α × β)} {k : α} :
    (alookup k l).isSome ↔ k ∈ keysOf l := by
  induction l with
  | nil => simp [alookup, keysOf]
  | cons q rest ih =>
    obtain ⟨a, b⟩ := q
    by_cases h : a = k
    · subst h
      simp [alookup, keysOf]
    · have h2 : ¬ k = a := fun hc => h hc.symm
      simp only [alookup, keysOf, List.map, List.mem_cons, h, if_false, h2,
        false_or] at ih ⊢
      exact ih

theorem alookup_eq_none_iff {l : List (α × β)} {k : α} :
    alookup k l = none ↔ k ∉ keysOf l := by
  rw [← alookup_isSome_iff, Option.not_isSome_iff_eq_none]

theorem alookup_updAssoc_self (k : α) (f : β → β) (l : List (α × β)) :
    alookup k (updAssoc k f l) = (alookup k l).map f := by
  induction l with
  | nil => simp [alookup, updAssoc]
  | cons q rest ih =>
    obtain ⟨a, b⟩ := q
    by_cases h : a = k
    · subst h
      simp [alookup, updAssoc]
    · simp only [updAssoc, List.map, h, if_false, alookup] at ih ⊢
      exact ih

theorem alookup_updAssoc_ne {q k : α} (hne : q ≠ k) (f : β → β)
    (l : List (α × β)) : alookup q (updAssoc k f l) = alookup q l := by
  induction l with
  | nil => simp [alookup, updAssoc]
  | cons e rest ih =>
    obtain ⟨a, b⟩ := e
    by_cases h : a = k
    · subst h
      have h2 : ¬ a = q := fun hc => hne hc.symm
      simp only [updAssoc, List.map, if_true, alookup, h2, if_false] at ih ⊢
      exact ih
    · simp only [updAssoc, List.map, h, if_false, alookup] at ih ⊢
      by_cases h2 : a = q <;> simp [h2, ih]

theorem keysOf_updAssoc (k : α) (f : β → β) (l : List (α × β)) :
    keysOf (updAssoc k f l) = keysOf l := by
  induction l with
  | nil => simp [updAssoc, keysOf]
  | cons e rest ih =>
    obtain ⟨a, b⟩ := e
    by_cases h : a = k <;>
      simp only [updAssoc, List.map, h, if_true, if_false, keysOf,
        List.cons.injEq, true_and] at ih ⊢ <;>
      exact ih

theorem updAssoc_of_not_mem {k : α} {l : List (α × β)} (h : k ∉ keysOf l)
    (f : β → β) : updAssoc k f l = l := by
  induction l with
  | nil => simp [updAssoc]
  | cons e rest ih =>
    obtain ⟨a, b⟩ := e
    simp only [keysOf, List.map, List.mem_cons, not_or] at h
    have ha : ¬ a = k := fun hc => h.1 hc.symm
    simp only [updAssoc, List.map, ha, if_false, List.cons.injEq, true_and]
    exact ih h.2

theorem alookup_map_setValue_self (k : α) (v : β) (l : List (α × β)) :
    alookup k (l.map (fun e => if e.1 = k then (e.1, v) else e)) =
      (alookup k l).map (fun _ => v) := by
  induction l with
  | nil => simp [alookup]
  | cons e rest ih =>
    obtain ⟨a, b⟩ := e
    by_cases h : a = k
    · subst h
      simp [alookup]
    · simp only [List.map, h, if_false, alookup] at ih ⊢
      exact ih

theorem alookup_map_setValue_ne {q k : α} (hne : q ≠ k) (v : β)
    (l : List (α × β)) :
    alookup q (l.map (fun e => if e.1 = k then (e.1, v) else e)) =
      alookup q l := by
  induction l with
  | nil => simp [alookup]
  | cons e rest ih =>
    obtain ⟨a, b⟩ := e
    by_cases h : a = k
    · subst h
      have h2 : ¬ a = q := fun hc => hne hc.symm
      simp only [List.map, if_true, alookup, h2, if_false] at ih ⊢
      exact ih
    · simp only [List.map, h, if_false, alookup] at ih ⊢
      by_cases h2 : a = q <;> simp [h2, ih]

theorem alookup_append (k : α) (l1 l2 : List (α × β)) :
    alookup k (l1 ++ l2) = ((alookup k l1).orElse (fun _ => alookup k l2)) := by
  induction l1 with
  | nil => simp [alookup]
  | cons e rest ih =>
    obtain ⟨a, b⟩ := e
    by_cases h : a = k <;> simp [alookup, h, ih]

theorem alookup_assocSet_self (k : α) (v : β) (l : List (α × β)) :
    alookup k (assocSet k v l) = some v := by
  unfold assocSet
  by_cases h : (alookup k l).isSome
  · rw [if_pos h, alookup_map_setValue_self]
    obtain ⟨w, hw⟩ := Option.isSome_iff_exists.mp h
    rw [hw]
    rfl
  · rw [if_neg h, alookup_append]
    rw [Option.not_isSome_iff_eq_none] at h
    rw [h]
    simp [alookup]

theorem alookup_assocSet_ne {q k : α} (hne : q ≠ k) (v : β)
    (l : List (α × β)) : alookup q (assocSet k v l) = alookup q l := by
  unfold assocSet
  by_cases h : (alookup k l).isSome
  · rw [if_pos h, alookup_map_setValue_ne hne]
  · rw [if_neg h, alookup_append]
    have h2 : ¬ k = q := fun hc => hne hc.symm
    simp [alookup, h2]

theorem keysOf_assocSet_mem {q k : α} {v : β} {l : List (α × β)}
    (h : q ∈ keysOf (assocSet k v l)) : q ∈ keysOf l ∨ q = k := by
  unfold assocSet at h
  by_cases hs : (alookup k l).isSome
  · rw [if_pos hs] at h
    left
    unfold keysOf at h ⊢
    rw [List.map_map] at h
    obtain ⟨e, he, heq⟩ := List.mem_map.mp h
    by_cases h2 : e.1 = k
    · simp only [Function.comp, h2, if_true] at heq
      exact heq ▸ (h2 ▸ List.mem_map_of_mem Prod.fst he)
    · simp only [Function.comp, h2, if_false] at heq
      exact heq ▸ List.mem_map_of_mem Prod.fst he
  · rw [if_neg hs] at h
    unfold keysOf at h ⊢
    rw [List.map_append] at h
    rcases List.mem_append.mp h with h | h
    · exact Or.inl h
    · right
      simpa using h

end AssocLemmas

/-! ## Roster and sum lemmas -/

theorem keysOf_addBal (pid : String) (amt : ℚ) (ps : List (String × Player)) :
    keysOf (addBal pid amt ps) = keysOf ps :=
  keysOf_updAssoc pid _ ps

theorem alookup_addBal_self (pid : String) (amt : ℚ)
    (ps : List (String × Player)) :
    alookup pid (addBal pid amt ps) =
      (alookup pid ps).map (fun p => { p with balance := p.balance + amt }) :=
  alookup_updAssoc_self pid _ ps

theorem alookup_addBal_ne {q pid : String} (h : q ≠ pid) (amt : ℚ)
    (ps : List (String × Player)) :
    alookup q (addBal pid amt ps) = alookup q ps :=
  alookup_updAssoc_ne h _ ps

theorem sumBalances_updAssoc {pid : String} {ps : List (String × Player)}
    {p : Player} (f : Player → Player) (hp : alookup pid ps = some p)
    (hnd : KeysNodup ps) :
    sumBalances (updAssoc pid f ps) =
      sumBalances ps - p.balance + (f p).balance := by
  induction ps with
  | nil => simp [alookup] at hp
  | cons e rest ih =>
    obtain ⟨a, b⟩ := e
    have hnd2 : KeysNodup rest ∧ a ∉ keysOf rest := by
      unfold KeysNodup keysOf at hnd ⊢
      simp only [List.map, List.nodup_cons] at hnd
      exact ⟨hnd.2, hnd.1⟩
    by_cases h : a = pid
    · subst h
      rw [alookup] at hp
      rw [if_pos rfl] at hp
      obtain rfl : b = p := Option.some.inj hp
      unfold updAssoc
      simp only [List.map, eq_self_iff_true, if_true]
      rw [← updAssoc, updAssoc_of_not_mem hnd2.2]
      simp only [sumBalances, List.map, List.sum_cons]
      ring
    · rw [alookup, if_neg h] at hp
      have hih := ih hp hnd2.1
      unfold updAssoc sumBalances at hih ⊢
      simp only [List.map, h, if_false, List.sum_cons]
      linarith [hih]

theorem sumBalances_addBal {pid : String} {ps : List (String × Player)}
    {p : Player} (amt : ℚ) (hp : alookup pid ps = some p)
    (hnd : KeysNodup ps) :
    sumBalances (addBal pid amt ps) = sumBalances ps + amt := by
  unfold addBal
  rw [sumBalances_updAssoc _ hp hnd]
  ring

theorem keysOf_foldl_preserved {γ : Type} {β : Type}
    (g : List (String × β) → γ → List (String × β))
    (hg : ∀ sc x, keysOf (g sc x) = keysOf sc) :
    ∀ (l : List γ) (init : List (String × β)),
      keysOf (l.foldl g init) = keysOf init := by
  intro l
  induction l with
  | nil => intro init; rfl
  | cons x rest ih =>
    intro init
    rw [List.foldl_cons, ih, hg]

theorem sum_alookup_getD_keys (sc : List (String × ℚ)) (hnd : KeysNodup sc) :
    ((keysOf sc).map (fun k => (alookup k sc).getD 0)).sum =
      (sc.map (fun q => q.2)).sum := by
  induction sc with
  | nil => simp [keysOf]
  | cons e rest ih =>
    obtain ⟨a, v⟩ := e
    have hnd2 : KeysNodup rest ∧ a ∉ keysOf rest := by
      unfold KeysNodup keysOf at hnd ⊢
      simp only [List.map, List.nodup_cons] at hnd
      exact ⟨hnd.2, hnd.1⟩
    unfold keysOf
    simp only [List.map, List.sum_cons]
    rw [alookup, if_pos rfl, Option.getD_some]
    have hcong : (rest.map Prod.fst).map
        (fun k => (alookup k ((a, v) :: rest)).getD 0) =
        (rest.map Prod.fst).map (fun k => (alookup k rest).getD 0) := by
      apply List.map_congr_left
      intro k hk
      have hak : ¬ a = k := fun hc => hnd2.2 (by
        unfold keysOf
        exact hc ▸ hk)
      rw [alookup, if_neg hak]
    rw [hcong]
    have hih := ih hnd2.1
    unfold keysOf at hih
    rw [hih]

theorem sum_map_mul_const (l : List String) (f : String → ℚ) (c : ℚ) :
    (l.map (fun k => f k * c)).sum = (l.map f).sum * c := by
  induction l with
  | nil => simp
  | cons x rest ih => simp [ih, add_mul]

/-! ## Loop characterizations -/

theorem engineLoop_spec (scores : List (String × ℚ)) (total prize : ℚ) :
    ∀ (ks : List String) (ps : List (String × Player)),
      KeysNodup ps → (∀ k ∈ ks, k ∈ keysOf ps) →
      (∀ k ∈ ks, (alookup k scores).isSome) →
      ∃ ps', engineLoop scores total prize ks ps = some ps' ∧
        keysOf ps' = keysOf ps ∧
        sumBalances ps' = sumBalances ps +
          (ks.map (fun k => (alookup k scores).getD 0 / total * prize)).sum := by
  intro ks
  induction ks with
  | nil =>
    intro ps hnd _ _
    exact ⟨ps, rfl, rfl, by simp [engineLoop]⟩
  | cons k rest ih =>
    intro ps hnd hmem hsc
    obtain ⟨sc, hsc1⟩ :=
      Option.isSome_iff_exists.mp (hsc k (List.mem_cons_self _ _))
    have hkmem : k ∈ keysOf ps := hmem k (List.mem_cons_self _ _)
    obtain ⟨p, hp⟩ :=
      Option.isSome_iff_exists.mp (alookup_isSome_iff.mpr hkmem)
    have hnd2 : KeysNodup (addBal k (sc / total * prize) ps) := by
      unfold KeysNodup
      rw [keysOf_addBal]
      exact hnd
    have hmem2 : ∀ k2 ∈ rest, k2 ∈ keysOf (addBal k (sc / total * prize) ps) := by
      intro k2 hk2
      rw [keysOf_addBal]
      exact hmem k2 (List.mem_cons_of_mem _ hk2)
    have hsc2 : ∀ k2 ∈ rest, (alookup k2 scores).isSome :=
      fun k2 hk2 => hsc k2 (List.mem_cons_of_mem _ hk2)
    obtain ⟨ps', h1, h2, h3⟩ := ih (addBal k (sc / total * prize) ps) hnd2 hmem2 hsc2
    refine ⟨ps', ?_, ?_, ?_⟩
    · simp only [engineLoop, hsc1]
      exact h1
    · rw [h2, keysOf_addBal]
    · rw [h3, sumBalances_addBal _ hp hnd]
      simp only [List.map, List.sum_cons, hsc1, Option.getD_some]
      ring

theorem engineLoop_alookup (scores : List (String × ℚ)) (total prize : ℚ) :
    ∀ (ks : List String) (ps ps' : List (String × Player)), ks.Nodup →
      engineLoop scores total prize ks ps = some ps' →
      (∀ k, k ∉ ks → alookup k ps' = alookup k ps) ∧
      (∀ k ∈ ks, alookup k ps' = (alookup k ps).map
        (fun p => { p with balance :=
          p.balance + (alookup k scores).getD 0 / total * prize })) := by
  intro ks
  induction ks with
  | nil =>
    intro ps ps' _ h
    obtain rfl : ps = ps' := by simpa [engineLoop] using h
    exact ⟨fun _ _ => rfl, fun k hk => absurd hk (List.not_mem_nil k)⟩
  | cons k rest ih =>
    intro ps ps' hnd h
    rw [List.nodup_cons] at hnd
    cases hsc : alookup k scores with
    | none => simp [engineLoop, hsc] at h
    | some sc =>
      simp only [engineLoop, hsc] at h
      obtain ⟨ihNot, ihMem⟩ := ih (addBal k (sc / total * prize) ps) ps' hnd.2 h
      constructor
      · intro k2 hk2
        rw [List.mem_cons, not_or] at hk2
        rw [ihNot k2 hk2.2, alookup_addBal_ne hk2.1]
      · intro k2 hk2
        rcases List.mem_cons.mp hk2 with rfl | hk2
        · rw [ihNot k2 hnd.1, alookup_addBal_self, hsc]
          rfl
        · have hne : k2 ≠ k := fun hc => hnd.1 (hc ▸ hk2)
          rw [ihMem k2 hk2, alookup_addBal_ne hne]

theorem legacyLoop_spec (total pool penaltyDist : ℚ)
    (excess : List (String × ℚ)) :
    ∀ (scs : List (String × ℚ)) (ps : List (String × Player)),
      KeysNodup scs → (∀ q ∈ scs, q.1 ∈ keysOf ps) →
      ∃ ps', legacyLoop total pool penaltyDist excess scs ps = some ps' ∧
        keysOf ps' = keysOf ps ∧
        (∀ k, k ∉ keysOf scs → alookup k ps' = alookup k ps) ∧
        (∀ q ∈ scs, alookup q.1 ps' = (alookup q.1 ps).map
          (fun p => { p with balance := p.balance +
            (q.2 / total * pool + penaltyDist + (alookup q.1 excess).getD 0) })) := by
  intro scs
  induction scs with
  | nil =>
    intro ps _ _
    exact ⟨ps, rfl, rfl, fun _ _ => rfl,
      fun q hq => absurd hq (List.not_mem_nil q)⟩
  | cons e rest ih =>
    intro ps hnd hmem
    obtain ⟨k, sc⟩ := e
    have hndr : KeysNodup rest ∧ k ∉ keysOf rest := by
      unfold KeysNodup keysOf at hnd ⊢
      simp only [List.map, List.nodup_cons] at hnd
      exact ⟨hnd.2, hnd.1⟩
    have hkmem : k ∈ keysOf ps := hmem (k, sc) (List.mem_cons_self _ _)
    have hks : (alookup k ps).isSome := alookup_isSome_iff.mpr hkmem
    set amt := sc / total * pool + penaltyDist + (alookup k excess).getD 0 with hamt
    have hmem2 : ∀ q ∈ rest, q.1 ∈ keysOf (addBal k amt ps) := by
      intro q hq
      rw [keysOf_addBal]
      exact hmem q (List.mem_cons_of_mem _ hq)
    obtain ⟨ps', h1, h2, h3, h4⟩ := ih (addBal k amt ps) hndr.1 hmem2
    refine ⟨ps', ?_, ?_, ?_, ?_⟩
    · simp only [legacyLoop, hks, if_true]
      exact h1
    · rw [h2, keysOf_addBal]
    · intro k2 hk2
      unfold keysOf at hk2
      simp only [List.map, List.mem_cons, not_or] at hk2
      rw [h3 k2 hk2.2, alookup_addBal_ne hk2.1]
    · intro q hq
      rcases List.mem_cons.mp hq with rfl | hq
      · rw [h3 k hndr.2, alookup_addBal_self, hamt]
      · have hne : q.1 ≠ k := by
          intro hc
          exact hndr.2 (hc ▸ (List.mem_map_of_mem Prod.fst hq))
        rw [h4 q hq, alookup_addBal_ne hne]

theorem penaltyLoop_fst (pens : List (String × ℚ)) :
    ∀ (pool : ℚ) (ex : List (String × ℚ)), KeysNodup pens →
      (penaltyLoop pens pool ex).1 =
        pool + (pens.map (fun q => (alookup q.1 ex).getD 0 * q.2)).sum := by
  induction pens with
  | nil => intro pool ex _; simp [penaltyLoop]
  | cons e rest ih =>
    intro pool ex hnd
    obtain ⟨a, p⟩ := e
    have hndr : KeysNodup rest ∧ a ∉ keysOf rest := by
      unfold KeysNodup keysOf at hnd ⊢
      simp only [List.map, List.nodup_cons] at hnd
      exact ⟨hnd.2, hnd.1⟩
    cases he : alookup a ex with
    | none =>
      simp only [penaltyLoop, he]
      rw [ih pool ex hndr.1]
      simp [he]
    | some ev =>
      simp only [penaltyLoop, he]
      rw [ih (pool + ev * p) (assocSet a (ev - ev * p) ex) hndr.1]
      have hcong : rest.map
          (fun q => (alookup q.1 (assocSet a (ev - ev * p) ex)).getD 0 * q.2) =
          rest.map (fun q => (alookup q.1 ex).getD 0 * q.2) := by
        apply List.map_congr_left
        intro q hq
        have hne : q.1 ≠ a := by
          intro hc
          exact hndr.2 (hc ▸ (List.mem_map_of_mem Prod.fst hq))
        rw [alookup_assocSet_ne hne]
      rw [hcong]
      simp only [List.map, List.sum_cons, he, Option.getD_some]
      ring

theorem penaltyLoop_snd (pens : List (String × ℚ)) :
    ∀ (pool : ℚ) (ex : List (String × ℚ)) (k : String), KeysNodup pens →
      alookup k (penaltyLoop pens pool ex).2 =
        (alookup k ex).map (fun e => e - e * (alookup k pens).getD 0) := by
  induction pens with
  | nil =>
    intro pool ex k _
    simp only [penaltyLoop, alookup, Option.getD_none]
    cases alookup k ex <;> simp
  | cons e rest ih =>
    intro pool ex k hnd
    obtain ⟨a, p⟩ := e
    have hndr : KeysNodup rest ∧ a ∉ keysOf rest := by
      unfold KeysNodup keysOf at hnd ⊢
      simp only [List.map, List.nodup_cons] at hnd
      exact ⟨hnd.2, hnd.1⟩
    cases he : alookup a ex with
    | none =>
      simp only [penaltyLoop, he]
      rw [ih pool ex k hndr.1]
      by_cases hak : a = k
      · subst hak
        rw [he]
        simp [alookup]
      · rw [alookup, if_neg hak]
    | some ev =>
      simp only [penaltyLoop, he]
      rw [ih (pool + ev * p) (assocSet a (ev - ev * p) ex) k hndr.1]
      by_cases hak : a = k
      · subst hak
        rw [alookup_assocSet_self, he]
        have : alookup a rest = none :=
          alookup_eq_none_iff.mpr hndr.2
        rw [this, alookup, if_pos rfl]
        simp
      · rw [alookup_assocSet_ne (fun hc => hak hc.symm), alookup, if_neg hak]

/-! ## Scoring support lemmas -/

theorem stakesOf_isSome {arts : List String} {ps : List (String × Player)}
    (h : ∀ a ∈ arts, a ∈ keysOf ps) :
    ∃ r, stakesOf arts ps = some r ∧ r.length = arts.length := by
  induction arts with
  | nil => exact ⟨[], rfl, rfl⟩
  | cons a rest ih =>
    obtain ⟨p, hp⟩ := Option.isSome_iff_exists.mp
      (alookup_isSome_iff.mpr (h a (List.mem_cons_self _ _)))
    obtain ⟨r, hr, hlen⟩ := ih (fun a2 ha2 => h a2 (List.mem_cons_of_mem _ ha2))
    refine ⟨(a, p.stake) :: r, ?_, by simp [hlen]⟩
    simp only [stakesOf, hp, hr, Option.map_some']

theorem foldlMin_le (l : List (String × ℚ)) :
    ∀ (x : ℚ), l.foldl (fun m q => min m q.2) x ≤ x ∧
      ∀ q ∈ l, l.foldl (fun m q => min m q.2) x ≤ q.2 := by
  induction l with
  | nil => intro x; exact ⟨le_refl x, fun q hq => absurd hq (List.not_mem_nil q)⟩
  | cons e rest ih =>
    intro x
    obtain ⟨ih1, ih2⟩ := ih (min x e.2)
    refine ⟨le_trans ih1 (min_le_left _ _), ?_⟩
    intro q hq
    rcases List.mem_cons.mp hq with rfl | hq
    · exact le_trans ih1 (min_le_right _ _)
    · exact ih2 q hq

theorem foldlMin_mem (l : List (String × ℚ)) :
    ∀ (x : ℚ), l.foldl (fun m q => min m q.2) x = x ∨
      ∃ q ∈ l, l.foldl (fun m q => min m q.2) x = q.2 := by
  induction l with
  | nil => intro x; exact Or.inl rfl
  | cons e rest ih =>
    intro x
    rcases ih (min x e.2) with h | ⟨q, hq, hqe⟩
    · rw [List.foldl_cons, h]
      rcases min_choice x e.2 with h2 | h2
      · exact Or.inl h2
      · exact Or.inr ⟨e, List.mem_cons_self _ _, h2⟩
    · exact Or.inr ⟨q, List.mem_cons_of_mem _ hq, hqe⟩

theorem keysOf_addScore (pid : String) (pts : ℚ) (sc : List (String × ℚ)) :
    keysOf (addScore pid pts sc) = keysOf sc :=
  keysOf_updAssoc pid _ sc

theorem calculateDrawingSetScores_keys {i : Nat} {s : GameState}
    {scores : List (String × ℚ)}
    (h : calculateDrawingSetScores i s = some scores) :
    keysOf scores = keysOf s.players := by
  unfold calculateDrawingSetScores at h
  cases hget : s.drawingSets.get? i with
  | none => rw [hget] at h; exact absurd h (by simp)
  | some dset =>
    rw [hget] at h
    simp only [Option.some.injEq] at h
    subst h
    rw [keysOf_foldl_preserved]
    on_goal 2 =>
      intro sc v
      by_cases hb : (alookup v.1 s.players).isSome ∧
          v.2 = "original_" ++ dset.originalId
      · rw [if_pos hb, keysOf_addScore]
      · rw [if_neg hb]
    rw [keysOf_foldl_preserved]
    on_goal 2 =>
      intro sc d
      by_cases hb : (alookup d.playerId s.players).isSome
      · rw [if_pos hb, keysOf_addScore]
      · rw [if_neg hb]
    unfold keysOf
    rw [List.map_map]
    rfl

/-! ## Frame lemmas: which fields each operation can touch -/

theorem distributeTokensEngine_frame {setIdx : Nat} {scores : List (String × ℚ)}
    {s s' : GameState} (h : distributeTokensEngine setIdx scores s = some s') :
    s' = { s with players := s'.players } := by
  unfold distributeTokensEngine at h
  simp only [] at h
  split at h
  · obtain rfl : s = s' := Option.some.inj h
    rfl
  · split at h
    · obtain rfl : s = s' := Option.some.inj h
      rfl
    · split at h
      · exact absurd h (by simp)
      · split at h
        · exact absurd h (by simp)
        · split at h
          · obtain rfl : s = s' := Option.some.inj h
            rfl
          · cases hL : engineLoop scores ((scores.map (fun q => q.2)).sum)
                s.prizePerPlayer (keysOf s.players) s.players with
            | none => rw [hL] at h; exact absurd h (by simp)
            | some ps2 =>
              rw [hL] at h
              simp only [Option.map_some', Option.some.injEq] at h
              rw [← h]

theorem calculateResults_of_flag {s : GameState}
    (h : s.resultsCalculated = true) : calculateResults s = some (s, []) := by
  unfold calculateResults
  rw [if_pos h]

theorem calcResultsStep_frame {i : Nat} {t t' : GameState}
    (h : (match calculateDrawingSetScores i t with
          | none => none
          | some scores => distributeTokensEngine i scores t) = some t') :
    t' = { t with players := t'.players } := by
  cases hs : calculateDrawingSetScores i t with
  | none => rw [hs] at h; exact absurd h (by simp)
  | some scores =>
    rw [hs] at h
    exact distributeTokensEngine_frame h

theorem foldlM_calcStep_frame :
    ∀ (l : List Nat) (s s' : GameState),
      l.foldlM (fun (st : GameState) (i : Nat) =>
        match calculateDrawingSetScores i st with
        | none => none
        | some scores => distributeTokensEngine i scores st) s = some s' →
      s' = { s with players := s'.players } := by
  intro l
  induction l with
  | nil =>
    intro s s' h
    obtain rfl : s = s' := Option.some.inj h
    rfl
  | cons i rest ih =>
    intro s s' h
    rw [List.foldlM_cons] at h
    cases hstep : (match calculateDrawingSetScores i s with
        | none => none
        | some scores => distributeTokensEngine i scores s) with
    | none => rw [hstep] at h; exact absurd h (by simp)
    | some t =>
      rw [hstep] at h
      have h1 := calcResultsStep_frame hstep
      have h2 := ih t s' h
      rw [h2, h1]

theorem calculateResults_frame {s : GameState} {r : GameState × List Event}
    (h : calculateResults s = some r) :
    r.1 = { s with players := r.1.players, phase := r.1.phase,
                   resultsCalculated := true } := by
  unfold calculateResults at h
  by_cases hflag : s.resultsCalculated = true
  · rw [if_pos hflag] at h
    obtain rfl : (s, ([] : List Event)) = r := Option.some.inj h
    rw [← hflag]
  · rw [if_neg hflag] at h
    cases hfold : (List.range s.drawingSets.length).foldlM
        (fun (st : GameState) (i : Nat) =>
          match calculateDrawingSetScores i st with
          | none => none
          | some scores => distributeTokensEngine i scores st)
        { s with phase := Phase.results, resultsCalculated := true } with
    | none => rw [hfold] at h; exact absurd h (by simp)
    | some s2 =>
      rw [hfold] at h
      simp only [Option.some.injEq] at h
      have h2 := foldlM_calcStep_frame _ _ _ hfold
      rw [← h]
      rw [h2]

theorem calculateResults_resultsCalculated {s : GameState}
    {r : GameState × List Event} (h : calculateResults s = some r) :
    r.1.resultsCalculated = true := by
  have hf := calculateResults_frame h
  rw [hf]

theorem startVotingOnSet_frame {s : GameState} {r : GameState × List Event}
    (h : startVotingOnSet s = some r) :
    r.1 = { s with players := r.1.players, phase := r.1.phase,
                   resultsCalculated := r.1.resultsCalculated,
                   currentSetStarted := r.1.currentSetStarted,
                   phaseTimerRef := r.1.phaseTimerRef } := by
  unfold startVotingOnSet at h
  split at h
  · obtain rfl : (s, ([] : List Event)) = r := Option.some.inj h
    rfl
  · split at h
    · have := calculateResults_frame h
      rw [this]
    · simp only [] at h
      obtain rfl := Option.some.inj h
      rfl

theorem nextVotingSet_frame {s : GameState} {r : GameState × List Event}
    (h : nextVotingSet s = some r) :
    r.1 = { s with players := r.1.players, phase := r.1.phase,
                   resultsCalculated := r.1.resultsCalculated,
                   currentSetStarted := r.1.currentSetStarted,
                   phaseTimerRef := r.1.phaseTimerRef,
                   idxCurrentDrawingSet := r.1.idxCurrentDrawingSet } := by
  unfold nextVotingSet at h
  have := startVotingOnSet_frame h
  rw [this]

theorem checkEarlyAdvanceVoting_frame {s : GameState}
    {r : GameState × List Event} (h : checkEarlyAdvanceVoting s = some r) :
    r.1 = { s with players := r.1.players, phase := r.1.phase,
                   resultsCalculated := r.1.resultsCalculated,
                   currentSetStarted := r.1.currentSetStarted,
                   phaseTimerRef := r.1.phaseTimerRef,
                   idxCurrentDrawingSet := r.1.idxCurrentDrawingSet } := by
  unfold checkEarlyAdvanceVoting at h
  split at h
  · obtain rfl : (s, ([] : List Event)) = r := Option.some.inj h
    rfl
  · simp only [] at h
    split at h
    · cases hnext : nextVotingSet { s with phaseTimerRef := none } with
      | none => rw [hnext] at h; exact absurd h (by simp)
      | some r2 =>
        rw [hnext] at h
        simp only [Option.some.injEq] at h
        have hfr := nextVotingSet_frame hnext
        rw [← h]
        rw [hfr]
    · obtain rfl : (s, ([] : List Event)) = r := Option.some.inj h
      rfl

/-! ## Distribution totals of the packaged scoring engine -/

theorem distributeTokensEngine_spec (s : GameState) (setIdx : Nat)
    (scores : List (String × ℚ))
    (hnd : KeysNodup s.players)
    (hkeys : keysOf scores = keysOf s.players) :
    ((scores.map (fun q => q.2)).sum = 0 →
      distributeTokensEngine setIdx scores s = some s) ∧
    (∀ dset, s.drawingSets.get? setIdx = some dset →
      (scores.map (fun q => q.2)).sum ≠ 0 →
      dset.drawings ≠ [] →
      (∀ d ∈ dset.drawings, d.playerId ∈ keysOf s.players) →
      ∃ s', distributeTokensEngine setIdx scores s = some s' ∧
        s' = { s with players := s'.players } ∧
        keysOf s'.players = keysOf s.players ∧
        sumBalances s'.players = sumBalances s.players + s.prizePerPlayer) := by
  constructor
  · intro h0
    unfold distributeTokensEngine
    by_cases hp : s.players = []
    · rw [if_pos hp]
    · simp only [] 
      rw [if_neg hp, if_pos h0]
  · intro dset hget hne hdne hart
    have hp : s.players ≠ [] := by
      intro hpe
      apply hne
      have hks : keysOf scores = [] := by rw [hkeys, hpe]; rfl
      have : scores = [] := by
        cases scores with
        | nil => rfl
        | cons a l => exact absurd hks (by simp [keysOf])
      rw [this]
      rfl
    have hsart : ∀ a ∈ setArtists dset, a ∈ keysOf s.players := by
      intro a ha
      unfold setArtists at ha
      obtain ⟨d, hd, hda⟩ := List.mem_map.mp (List.mem_dedup.mp ha)
      exact hda ▸ hart d hd
    obtain ⟨stakes, hstakes, hslen⟩ := stakesOf_isSome hsart
    have hsne : stakes ≠ [] := by
      intro hnil
      apply hdne
      have h1 : (setArtists dset).length = 0 := by rw [← hslen, hnil]; rfl
      have h2 : setArtists dset = [] := List.length_eq_zero.mp h1
      unfold setArtists at h2
      rw [List.dedup_eq_nil] at h2
      exact List.map_eq_nil_iff.mp h2
    have hndsc : KeysNodup scores := by
      unfold KeysNodup
      rw [hkeys]
      exact hnd
    have hms : ∀ k ∈ keysOf s.players, (alookup k scores).isSome := by
      intro k hk
      apply alookup_isSome_iff.mpr
      rw [hkeys]
      exact hk
    obtain ⟨ps', hL1, hL2, hL3⟩ := engineLoop_spec scores
      ((scores.map (fun q => q.2)).sum) s.prizePerPlayer (keysOf s.players)
      s.players hnd (fun k hk => hk) hms
    refine ⟨{ s with players := ps' }, ?_, rfl, hL2, ?_⟩
    · simp only [distributeTokensEngine, hp, hne, hget, hstakes, hsne, hL1,
        if_false, Option.map_some']
    · rw [hL3]
      have hterm : (keysOf s.players).map
          (fun k => (alookup k scores).getD 0 /
            ((scores.map (fun q => q.2)).sum) * s.prizePerPlayer) =
          (keysOf scores).map (fun k => (alookup k scores).getD 0 *
            (s.prizePerPlayer / (scores.map (fun q => q.2)).sum)) := by
        rw [hkeys]
        apply List.map_congr_left
        intro k _
        rw [div_mul_eq_mul_div, mul_div_assoc]
      rw [hterm, sum_map_mul_const, sum_alookup_getD_keys scores hndsc,
        mul_comm, div_mul_cancel₀ _ hne]

/-! ## Claim C1: legacy settlement formula -/

/-- C1 (amended): in the legacy scoring module (scoring.py), the token
pool distributed for a set equals the minimum stake among that set's
artists; each artist contributes pool divided by the number of artists,
and their excess stake above that contribution — not above the pool
minimum — is refunded reduced by their accumulated percentage penalty;
the deducted penalties are pooled and split evenly among all scored
players; and the pool itself is distributed in proportion to each
player's share of the set's total points. -/
theorem claim_C1 (s : GameState) (setIdx : Nat) (dset : DrawingSet)
    (scores : List (String × ℚ)) (a : String × ℚ) (rest : List (String × ℚ))
    (hp : s.players ≠ [])
    (hget : s.drawingSets.get? setIdx = some dset)
    (hstakes : stakesOf (setArtists dset) s.players = some (a :: rest))
    (hndsc : KeysNodup scores)
    (hndpen : KeysNodup s.percentagePenalties)
    (hmem : ∀ q ∈ scores, q.1 ∈ keysOf s.players)
    (hne : (scores.map (fun q => q.2)).sum ≠ 0) :
    ∃ s', distributeTokensLegacy setIdx scores s = some s' ∧
      ((legacyPool a rest = a.2 ∨ ∃ q ∈ rest, legacyPool a rest = q.2) ∧
        legacyPool a rest ≤ a.2 ∧ (∀ q ∈ rest, legacyPool a rest ≤ q.2)) ∧
      (∀ q ∈ scores,
        alookup q.1 s'.players = (alookup q.1 s.players).map (fun p =>
          { p with balance := p.balance +
            (q.2 / (scores.map (fun q2 => q2.2)).sum * legacyPool a rest
             + legacyPenaltyPool s.percentagePenalties
                 (legacyExcess0 (a :: rest)
                   (legacyPool a rest / ((setArtists dset).length : ℚ)))
                 / (scores.length : ℚ)
             + ((alookup q.1 (legacyExcess0 (a :: rest)
                   (legacyPool a rest / ((setArtists dset).length : ℚ)))).map
                 (fun e => e - e *
                   (alookup q.1 s.percentagePenalties).getD 0)).getD 0) })) := by
  obtain ⟨ps', hL1, hL2, hL3, hL4⟩ := legacyLoop_spec
    ((scores.map (fun q => q.2)).sum) (legacyPool a rest)
    ((penaltyLoop s.percentagePenalties 0
        (legacyExcess0 (a :: rest)
          (legacyPool a rest / ((setArtists dset).length : ℚ)))).1
      / (scores.length : ℚ))
    (penaltyLoop s.percentagePenalties 0
        (legacyExcess0 (a :: rest)
          (legacyPool a rest / ((setArtists dset).length : ℚ)))).2
    scores s.players hndsc hmem
  refine ⟨{ s with players := ps' }, ?_, ?_, ?_⟩
  · simp only [distributeTokensLegacy, hp, hget, hstakes, hne, if_false,
      ite_false]
    rw [show legacyExcess0 (a :: rest)
        (legacyPool a rest / ((setArtists dset).length : ℚ)) =
        (a :: rest).map (fun q => (q.1, q.2 -
          (legacyPool a rest / ((setArtists dset).length : ℚ)))) from rfl] at hL1
    rw [show legacyPool a rest = rest.foldl (fun m q => min m q.2) a.2 from rfl] at hL1
    rw [hL1]
    rfl
  · refine ⟨foldlMin_mem rest a.2, (foldlMin_le rest a.2).1,
      (foldlMin_le rest a.2).2⟩
  · intro q hq
    have h4 := hL4 q hq
    rw [h4]
    rw [penaltyLoop_fst _ _ _ hndpen, penaltyLoop_snd _ _ _ _ hndpen,
      zero_add]
    rfl

/-- C1 counterexample: artist B staked 30 against a pool minimum of 10,
so the claim as stated predicts a refunded excess of 30 - 10 = 20 and a
balance delta of 0/125*10 + 20 = 20 for B; the legacy engine instead
refunds the excess over the per-artist contribution (30 - 10/2 = 25), so
B ends with balance 25. -/
theorem claim_C1_counterexample :
    calculateDrawingSetScores 0 c1State = some c1Scores ∧
    (distributeTokensLegacy 0 c1Scores c1State).map
      (fun s2 => (alookup "B" s2.players).map (fun p => p.balance)) =
      some (some 25) ∧
    ¬ ((25 : ℚ) = 0 / 125 * 10 + (30 - 10)) := by
  refine ⟨by with_unfolding_all rfl, by with_unfolding_all rfl, by norm_num⟩

/-- C1 witness: the amended settlement formula applied to `c1State`
yields balance 100/125*10 + (10 - 10/2) = 13 for artist A. -/
theorem claim_C1_witness :
    ∃ s2, distributeTokensLegacy 0 c1Scores c1State = some s2 ∧
      (alookup "A" s2.players).map (fun p => p.balance) = some 13 := by
  obtain ⟨s2, h1, _, hform⟩ := claim_C1 c1State 0 c1Set c1Scores ("A", 10)
    [("B", 30)] (by decide) rfl (by with_unfolding_all rfl)
    (by unfold KeysNodup; decide) (by unfold KeysNodup; decide)
    (by decide) (by with_unfolding_all decide)
  refine ⟨s2, h1, ?_⟩
  rw [hform ("A", 100) (by decide)]
  with_unfolding_all rfl

/-! ## Claim C2: token totals around the scoring engine -/

theorem sumBalances_applyStake (ps : List (String × Player)) (c : ℚ) :
    sumBalances (ps.map (fun q : String × Player =>
      (q.1, { q.2 with stake := c, balance := q.2.balance - c }))) =
      sumBalances ps - ps.length * c := by
  induction ps with
  | nil => simp [sumBalances]
  | cons e rest ih =>
    unfold sumBalances at ih ⊢
    simp only [List.map, List.sum_cons, List.length_cons]
    push_cast
    rw [ih]
    ring

theorem drawingStartPhase_escrow (s : GameState)
    (hstake : ∀ q ∈ s.players, q.2.stake = 0) :
    sumBalances (drawingStartPhase s).1.players =
      sumBalances s.players - s.players.length * s.prizePerPlayer := by
  unfold drawingStartPhase
  simp only []
  have hmap : s.players.map (fun q : String × Player =>
      if q.2.stake = 0 then
        (q.1, { q.2 with stake := s.prizePerPlayer,
                         balance := q.2.balance - s.prizePerPlayer })
      else q) =
      s.players.map (fun q : String × Player =>
        (q.1, { q.2 with stake := s.prizePerPlayer,
                         balance := q.2.balance - s.prizePerPlayer })) :=
    List.map_congr_left (fun q hq => by rw [if_pos (hstake q hq)])
  rw [hmap, sumBalances_applyStake]

/-- C2 (amended): the stakes escrowed at drawing-phase start (one
`prize_per_player` per player) are redistributed by the packaged scoring
engine only as `prize_per_player` per drawing set whose total score is
nonzero: a set whose total score is zero distributes nothing and leaves
the state unchanged, and a player who staked but submitted no original
produces no drawing set, so the corresponding tokens are not returned and
the total balance after Scoring falls short of the sum before the game
minus the entry fees. -/
theorem claim_C2 :
    (∀ (s : GameState), (∀ q ∈ s.players, q.2.stake = 0) →
      sumBalances (drawingStartPhase s).1.players =
        sumBalances s.players - s.players.length * s.prizePerPlayer) ∧
    (∀ (s : GameState) (setIdx : Nat) (scores : List (String × ℚ)),
      (scores.map (fun q => q.2)).sum = 0 →
      distributeTokensEngine setIdx scores s = some s) ∧
    (∀ (s : GameState) (setIdx : Nat) (scores : List (String × ℚ))
        (dset : DrawingSet),
      KeysNodup s.players → keysOf scores = keysOf s.players →
      s.drawingSets.get? setIdx = some dset →
      (scores.map (fun q => q.2)).sum ≠ 0 → dset.drawings ≠ [] →
      (∀ d ∈ dset.drawings, d.playerId ∈ keysOf s.players) →
      ∃ s2, distributeTokensEngine setIdx scores s = some s2 ∧
        sumBalances s2.players = sumBalances s.players + s.prizePerPlayer) := by
  refine ⟨drawingStartPhase_escrow, ?_, ?_⟩
  · intro s setIdx scores h0
    unfold distributeTokensEngine
    by_cases hp : s.players = []
    · rw [if_pos hp]
    · simp only []
      rw [if_neg hp, if_pos h0]
  · intro s setIdx scores dset hnd hkeys hget hne hdne hart
    obtain ⟨s2, h1, _, _, h4⟩ :=
      (distributeTokensEngine_spec s setIdx scores hnd hkeys).2 dset hget hne
        hdne hart
    exact ⟨s2, h1, h4⟩

/-- C2 counterexample: in the concrete run `c2Run` (three players with
balance 100 each, so 300 in total; entry fee 5 and stake 10 each; only
one original submitted, whose set scores 125), the game reaches Results
with a total balance of 265, while the claim demands 300 - 15 = 285
within 1 unit: the two stakes of the players who submitted no original
vanish. -/
theorem claim_C2_counterexample :
    (c2Run.map (fun s => (s.phase, sumBalances s.players))) =
      some (Phase.results, 265) ∧
    ¬ ((300 - 15 - 265 : ℚ) ≤ 1) := by
  constructor
  · with_unfolding_all rfl
  · norm_num

/-- C2 witness: the escrow part applied to a one-player room (100 - 10 =
90) and the distribution part applied to `c1State` (sum of balances rises
by exactly `prize_per_player` = 10). -/
theorem claim_C2_witness :
    sumBalances (drawingStartPhase c2WitState).1.players = 90 ∧
    ∃ s2, distributeTokensEngine 0 c1Scores c1State = some s2 ∧
      sumBalances s2.players = 10 := by
  constructor
  · rw [claim_C2.1 c2WitState (by decide)]
    with_unfolding_all rfl
  · obtain ⟨s2, h1, h2⟩ := claim_C2.2.2 c1State 0 c1Scores c1Set
      (by unfold KeysNodup; decide) (by decide) rfl
      (by with_unfolding_all decide) (by decide) (by decide)
    refine ⟨s2, h1, ?_⟩
    rw [h2]
    with_unfolding_all rfl

/-! ## Claim C3: exactly-once phase entry -/

/-- C3 (amended): repeated invocation of a guarded phase entry point is a
no-op — the copying phase start is idempotent after any first call (copy
assignments are computed once per game), the voting phase start is
idempotent whenever the first call left the game in the Voting phase
(drawing sets are constructed once per game), and results calculation runs
at most once per game instance; the drawing phase's start entry point has
no such guard (see the counterexample). -/
theorem claim_C3 :
    (∀ (order order2 : List String) (s : GameState),
      copyingStartPhase order2 (copyingStartPhase order s).1 =
        ((copyingStartPhase order s).1, [])) ∧
    (∀ (sh sh2 : List Drawing → List Drawing) (s : GameState)
        (r : GameState × List Event),
      votingStartPhase sh s = some r → r.1.phase = Phase.voting →
      votingStartPhase sh2 r.1 = some (r.1, [])) ∧
    (∀ (s : GameState) (r : GameState × List Event),
      calculateResults s = some r →
      calculateResults r.1 = some (r.1, [])) := by
  refine ⟨?_, ?_, ?_⟩
  · intro order order2 s
    by_cases h1 : s.phase = Phase.endedEarly
    · simp [copyingStartPhase, h1]
    · by_cases h2 : s.copyingPhaseStarted = true ∧ s.phase = Phase.copying
      · simp [copyingStartPhase, h1, h2]
      · by_cases h3 : s.assignmentsMade = true
        · simp [copyingStartPhase, h1, h2, h3, assignCopyingTasks]
        · simp [copyingStartPhase, h1, h2, h3, assignCopyingTasks]
  · intro sh sh2 s r hfirst hphase
    have hcreated : r.1.drawingSetsCreated = true := by
      unfold votingStartPhase at hfirst
      by_cases h1 : s.phase = Phase.endedEarly
      · rw [if_pos h1] at hfirst
        obtain rfl : (s, ([] : List Event)) = r := Option.some.inj hfirst
        rw [hphase] at h1
        exact absurd h1 (by intro hc; cases hc)
      · rw [if_neg h1] at hfirst
        by_cases h2 : s.phase = Phase.voting ∧ s.drawingSetsCreated = true
        · rw [if_pos h2] at hfirst
          obtain rfl : (s, ([] : List Event)) = r := Option.some.inj hfirst
          exact h2.2
        · rw [if_neg h2] at hfirst
          simp only [] at hfirst
          by_cases h3 : s.drawingSetsCreated = true
          · rw [if_neg (not_not_intro h3)] at hfirst
            have hfr := startVotingOnSet_frame hfirst
            rw [hfr]
            exact h3
          · rw [if_pos h3] at hfirst
            have hfr := startVotingOnSet_frame hfirst
            rw [hfr]
    unfold votingStartPhase
    rw [if_neg (by rw [hphase]; intro hc; cases hc),
      if_pos ⟨hphase, hcreated⟩]
  · intro s r h
    exact calculateResults_of_flag (calculateResults_resultsCalculated h)

/-- C3 counterexample: the drawing phase's start entry point is
unguarded — invoking it a second time re-sends the per-player
`phase_changed` drawing broadcast (and re-arms the timer), so the
phase-entry broadcast is not sent exactly once. -/
theorem claim_C3_counterexample :
    (drawingStartPhase (drawingStartPhase c2WitState).1).2 =
      [Event.phaseChangedDrawing "A", Event.phaseTimer] ∧
    Event.phaseChangedDrawing "A" ∈ (drawingStartPhase c2WitState).2 := by
  constructor
  · with_unfolding_all rfl
  · with_unfolding_all decide

/-- C3 witness: concrete second invocations are no-ops — the copying
start on an already-started state, the voting start after a first start
that reached Voting, and results calculation after a first calculation. -/
theorem claim_C3_witness :
    copyingStartPhase [] (copyingStartPhase [] emptyRoom).1 =
      ((copyingStartPhase [] emptyRoom).1, []) ∧
    votingStartPhase id c3First.1 = some (c3First.1, []) ∧
    calculateResults c3ResFirst.1 = some (c3ResFirst.1, []) := by
  refine ⟨claim_C3.1 [] [] emptyRoom, ?_, ?_⟩
  · exact claim_C3.2.1 id id c3VoteState c3First (by with_unfolding_all rfl)
      (by with_unfolding_all rfl)
  · exact claim_C3.2.2 c1State c3ResFirst (by with_unfolding_all rfl)

/-! ## Claim C4: early-end refund -/

/-- C4: player A's disconnect drops the roster to 2 < 3 and triggers the
early end, refunding C's stake once (85 + 10 = 95); but when B then
disconnects, `remove_player` runs `end_game_early` again — the phase
`ended_early` is not excluded by its check and stakes are never zeroed —
so C is refunded a second time (105 = 85 + 2 * 10), contradicting the
claimed exactly-once refund of 85 + 10. -/
theorem claim_C4 :
    (removePlayer "A" c4State).1.phase = Phase.endedEarly ∧
    (alookup "C" (removePlayer "A" c4State).1.players).map
      (fun p => p.balance) = some 95 ∧
    (alookup "C" (removePlayer "B" (removePlayer "A" c4State).1).1.players).map
      (fun p => p.balance) = some 105 ∧
    ¬ ((105 : ℚ) = 85 + 10) := by
  refine ⟨by with_unfolding_all rfl, by with_unfolding_all rfl,
    by with_unfolding_all rfl, by norm_num⟩

/-! ## Claim C5: vote validation order and rejection frame -/

theorem mem_eligible_iff {cur : DrawingSet} {s : GameState} {pid : String} :
    pid ∈ getEligibleVotersForSet cur s ↔
      pid ∈ keysOf s.players ∧
        pid ∉ cur.drawings.map (fun d => d.playerId) := by
  unfold getEligibleVotersForSet
  rw [List.mem_filter]
  simp only [decide_eq_true_iff]

/-- C5: the vote validator rejects with, in priority order, WrongPhase,
UnknownPlayer, SetIndexExhausted, NotEligible, AlreadyVoted,
UnknownDrawingId (proved by equivalence with a direct transcription of
that priority list), and every rejected vote leaves the game state
entirely unchanged — in particular a second vote for the current set is
rejected, not overwritten. -/
theorem claim_C5 :
    (∀ (pid did : String) (s : GameState),
      validateVote pid did s = claimedVoteCheck pid did s) ∧
    (∀ (pid did : String) (s : GameState) (e : VoteError),
      validateVote pid did s = some e →
      ∀ ce, submitVote pid did ce s = some (false, s, [])) := by
  constructor
  · intro pid did s
    unfold validateVote claimedVoteCheck
    by_cases hph : s.phase ≠ Phase.voting
    · rw [if_pos hph, if_pos hph]
    · rw [if_neg hph, if_neg hph]
      by_cases hmem : pid ∈ keysOf s.players
      · have hnone : ¬ (alookup pid s.players).isNone = true := by
          rw [Option.isNone_iff_eq_none, alookup_eq_none_iff]
          exact not_not_intro hmem
        rw [if_neg hnone, if_neg (not_not_intro hmem)]
        cases hget : s.drawingSets.get? s.idxCurrentDrawingSet with
        | none => rw [if_pos (List.get?_eq_none.mp hget)]
        | some cur =>
          have hlt : s.idxCurrentDrawingSet < s.drawingSets.length :=
            (List.get?_eq_some.mp hget).1
          rw [if_neg (not_le_of_lt hlt)]
          have hgetD : s.drawingSets.getD s.idxCurrentDrawingSet
              { originalId := "", drawings := [] } = cur := by
            rw [List.getD_eq_get?, hget]
            rfl
          simp only [hgetD]
          by_cases helig : pid ∈ cur.drawings.map (fun d => d.playerId)
          · have hc : ¬ (getEligibleVotersForSet cur s).contains pid = true :=
              fun hcontains =>
                (mem_eligible_iff.mp (List.elem_iff.mp hcontains)).2 helig
            rw [if_pos hc, if_pos helig]
          · have hc : (getEligibleVotersForSet cur s).contains pid = true :=
              List.elem_iff.mpr (mem_eligible_iff.mpr ⟨hmem, helig⟩)
            rw [if_neg (not_not_intro hc), if_neg helig]
            by_cases hvoted :
                pid ∈ keysOf ((alookup s.idxCurrentDrawingSet s.votes).getD [])
            · rw [if_pos (alookup_isSome_iff.mpr hvoted), if_pos hvoted]
            · have hnv : ¬ (alookup pid
                  ((alookup s.idxCurrentDrawingSet s.votes).getD [])).isSome = true :=
                fun hc2 => hvoted (alookup_isSome_iff.mp hc2)
              rw [if_neg hnv, if_neg hvoted]
              by_cases hdid : did ∈ cur.drawings.map (fun d => d.id)
              · rw [if_neg (not_not_intro (List.elem_iff.mpr hdid)),
                  if_neg (not_not_intro hdid)]
              · rw [if_pos (fun hc2 => hdid (List.elem_iff.mp hc2)),
                  if_pos hdid]
      · rw [if_pos (by rw [Option.isNone_iff_eq_none, alookup_eq_none_iff]
                       exact hmem),
          if_pos hmem]
  · intro pid did s e h ce
    simp only [submitVote, h]

/-- C5 witness: on `c5State` the validator agrees with the claimed
priority list, C's second vote attempt is rejected with the state
unchanged, and C's stored vote is still the original one. -/
theorem claim_C5_witness :
    validateVote "C" "original_A" c5State =
      claimedVoteCheck "C" "original_A" c5State ∧
    submitVote "C" "copy_B_A" true c5State = some (false, c5State, []) ∧
    alookup "C" ((alookup 0 c5State.votes).getD []) = some "original_A" := by
  refine ⟨claim_C5.1 "C" "original_A" c5State,
    claim_C5.2 "C" "copy_B_A" c5State VoteError.alreadyVoted
      (by with_unfolding_all rfl) true,
    by with_unfolding_all rfl⟩

/-! ## Claim C6: copy submission validation -/

/-- C6 (amended): a copy submission is rejected, with `copied_drawings`
and `completed_copies` unchanged, exactly when the phase is not Copying
or the player is not in the roster; the target id is NOT validated
against the player's copy assignments — a submission naming any target,
assigned or not, is accepted, stored under
`copied_drawings[player][target]`, and counted in `completed_copies`. -/
theorem claim_C6 :
    (∀ (sh : List Drawing → List Drawing) (pid tid payload : String)
        (ce : Bool) (s : GameState), s.phase ≠ Phase.copying →
      copyingSubmitDrawing sh pid tid payload ce s = some (false, s, [])) ∧
    (∀ (sh : List Drawing → List Drawing) (pid tid payload : String)
        (ce : Bool) (s : GameState), alookup pid s.players = none →
      copyingSubmitDrawing sh pid tid payload ce s = some (false, s, [])) ∧
    (∀ (sh : List Drawing → List Drawing) (pid tid payload : String)
        (ce : Bool) (s : GameState) (r : Bool × GameState × List Event),
      (alookup pid s.players).isSome → s.phase = Phase.copying →
      copyingSubmitDrawing sh pid tid payload ce s = some r → r.1 = true) ∧
    (∀ (sh : List Drawing → List Drawing) (pid tid payload : String)
        (s : GameState),
      (alookup pid s.players).isSome → s.phase = Phase.copying →
      copyingSubmitDrawing sh pid tid payload false s = some (true,
        { s with
          copiedDrawings := assocSet pid
            (assocSet tid payload ((alookup pid s.copiedDrawings).getD []))
            s.copiedDrawings,
          players := updAssoc pid (fun p =>
            { p with completedCopies := p.completedCopies + 1 }) s.players },
        [Event.copySubmitted pid tid])) := by
  refine ⟨?_, ?_, ?_, ?_⟩
  · intro sh pid tid payload ce s hph
    unfold copyingSubmitDrawing
    rw [if_neg (fun hc => hph hc.2)]
  · intro sh pid tid payload ce s hnone
    unfold copyingSubmitDrawing
    rw [if_neg (fun hc => by rw [hnone] at hc; exact absurd hc.1 (by simp))]
  · intro sh pid tid payload ce s r hsome hph hr
    unfold copyingSubmitDrawing at hr
    rw [if_pos ⟨hsome, hph⟩] at hr
    cases ce with
    | false =>
      simp only [] at hr
      obtain rfl := Option.some.inj hr
      rfl
    | true =>
      simp only [] at hr
      cases hcE : checkEarlyAdvanceCopying sh
          { s with
            copiedDrawings := assocSet pid
              (assocSet tid payload ((alookup pid s.copiedDrawings).getD []))
              s.copiedDrawings,
            players := updAssoc pid (fun p =>
              { p with completedCopies := p.completedCopies + 1 })
              s.players } with
      | none => rw [hcE] at hr; exact absurd hr (by simp)
      | some r2 =>
        rw [hcE] at hr
        obtain rfl := Option.some.inj hr
        rfl
  · intro sh pid tid payload s hsome hph
    unfold copyingSubmitDrawing
    rw [if_pos ⟨hsome, hph⟩]
    rfl

/-- C6 counterexample: player A's only assigned target is B, yet a copy
submission naming the unassigned target "Z" is accepted (returns true),
stored under `copied_drawings["A"]["Z"]`, and counted in A's
`completed_copies`, with the game still in the Copying phase — the claim
demands rejection with both structures unchanged. -/
theorem claim_C6_counterexample :
    ("Z" ∉ (alookup "A" c6State.copyAssignments).getD []) ∧
    (copyingSubmitDrawing id "A" "Z" "fake" true c6State).map (fun r =>
      (r.1, r.2.1.phase,
        alookup "Z" ((alookup "A" r.2.1.copiedDrawings).getD []),
        (alookup "A" r.2.1.players).map (fun p => p.completedCopies))) =
      some (true, Phase.copying, some "fake", some 1) := by
  constructor
  · decide
  · with_unfolding_all rfl

/-- C6 witness: a submission outside the Copying phase is rejected with
the state unchanged, while a submission in phase is accepted and
stored. -/
theorem claim_C6_witness :
    copyingSubmitDrawing id "A" "B" "art" true emptyRoom =
      some (false, emptyRoom, []) ∧
    (copyingSubmitDrawing id "A" "B" "copyart" false c6State).map
      (fun r => (r.1, alookup "B" ((alookup "A" r.2.1.copiedDrawings).getD []))) =
      some (true, some "copyart") := by
  refine ⟨claim_C6.1 id "A" "B" "art" true emptyRoom (by decide), ?_⟩
  rw [claim_C6.2.2.2 id "A" "B" "copyart" c6State (by with_unfolding_all rfl)
    rfl]
  with_unfolding_all rfl

/-! ## Claim C7: authors never vote on their own set -/

theorem validateVote_none_elig {pid did : String} {s : GameState}
    (h : validateVote pid did s = none) :
    ∃ cur, s.drawingSets.get? s.idxCurrentDrawingSet = some cur ∧
      pid ∈ getEligibleVotersForSet cur s := by
  unfold validateVote at h
  by_cases h1 : s.phase ≠ Phase.voting
  · rw [if_pos h1] at h
    exact absurd h (by simp)
  · rw [if_neg h1] at h
    by_cases h2 : (alookup pid s.players).isNone = true
    · rw [if_pos h2] at h
      exact absurd h (by simp)
    · rw [if_neg h2] at h
      cases hget : s.drawingSets.get? s.idxCurrentDrawingSet with
      | none =>
        rw [hget] at h
        exact absurd h (by simp)
      | some cur =>
        rw [hget] at h
        simp only [] at h
        by_cases h3 : ¬ (getEligibleVotersForSet cur s).contains pid = true
        · rw [if_pos h3] at h
          exact absurd h (by simp)
        · exact ⟨cur, rfl, List.elem_iff.mp (not_not.mp h3)⟩

/-- C7: the eligible-voter list of a set excludes every author of an
entry of that set (copy authors included); an in-roster author's vote on
the current set is rejected as not eligible with the state unchanged; and
the no-author-ever-voted invariant is preserved by vote submission. -/
theorem claim_C7 :
    (∀ (dset : DrawingSet) (s : GameState) (pid : String),
      pid ∈ getEligibleVotersForSet dset s →
      pid ∉ dset.drawings.map (fun d => d.playerId)) ∧
    (∀ (pid did : String) (s : GameState) (cur : DrawingSet),
      s.phase = Phase.voting → pid ∈ keysOf s.players →
      s.drawingSets.get? s.idxCurrentDrawingSet = some cur →
      pid ∈ cur.drawings.map (fun d => d.playerId) →
      validateVote pid did s = some VoteError.playerNotEligible ∧
      ∀ ce, submitVote pid did ce s = some (false, s, [])) ∧
    (∀ (pid did : String) (ce : Bool) (s : GameState)
        (r : Bool × GameState × List Event),
      NoAuthorVoted s → submitVote pid did ce s = some r →
      NoAuthorVoted r.2.1) := by
  refine ⟨?_, ?_, ?_⟩
  · intro dset s pid hmem
    exact (mem_eligible_iff.mp hmem).2
  · intro pid did s cur hph hmem hget hauthor
    have hval : validateVote pid did s = some VoteError.playerNotEligible := by
      unfold validateVote
      rw [if_neg (not_not_intro hph),
        if_neg (by rw [Option.isNone_iff_eq_none, alookup_eq_none_iff]
                   exact not_not_intro hmem)]
      simp only [hget]
      rw [if_pos (fun hcontains =>
        (mem_eligible_iff.mp (List.elem_iff.mp hcontains)).2 hauthor)]
    refine ⟨hval, fun ce => ?_⟩
    simp only [submitVote, hval]
  · intro pid did ce s r hinv hsub
    unfold submitVote at hsub
    cases hval : validateVote pid did s with
    | some e =>
      rw [hval] at hsub
      obtain rfl := Option.some.inj hsub
      exact hinv
    | none =>
      rw [hval] at hsub
      simp only [] at hsub
      obtain ⟨cur, hget, helig⟩ := validateVote_none_elig hval
      have hnotauthor : pid ∉ cur.drawings.map (fun d => d.playerId) :=
        (mem_eligible_iff.mp helig).2
      -- the state with the vote recorded
      set s1 : GameState := { s with
        votes := assocSet s.idxCurrentDrawingSet
          (assocSet pid did
            ((alookup s.idxCurrentDrawingSet s.votes).getD []))
          s.votes,
        players := updAssoc pid
          (fun p => { p with votesCast := p.votesCast + 1 }) s.players }
        with hs1
      have hinv1 : NoAuthorVoted s1 := by
        intro i dset hgeti q hq
        have hsets : s1.drawingSets = s.drawingSets := rfl
        rw [hsets] at hgeti
        by_cases hi : i = s.idxCurrentDrawingSet
        · have hvotes : alookup i s1.votes =
              some (assocSet pid did
                ((alookup s.idxCurrentDrawingSet s.votes).getD [])) := by
            rw [hs1, hi]
            exact alookup_assocSet_self s.idxCurrentDrawingSet _ s.votes
          rw [hvotes] at hq
          simp only [Option.getD_some] at hq
          rcases keysOf_assocSet_mem hq with hq2 | rfl
          · have hq3 : q ∈ keysOf ((alookup i s.votes).getD []) := by
              rw [hi]
              exact hq2
            exact hinv i dset hgeti q hq3
          · obtain rfl : cur = dset := by
              rw [hi, hget] at hgeti
              exact Option.some.inj hgeti
            exact hnotauthor
        · have hvotes : alookup i s1.votes = alookup i s.votes := by
            rw [hs1]
            exact alookup_assocSet_ne hi _ s.votes
          rw [hvotes] at hq
          exact hinv i dset hgeti q hq
      cases ce with
      | false =>
        rw [if_neg Bool.false_ne_true] at hsub
        obtain rfl := Option.some.inj hsub
        exact hinv1
      | true =>
        rw [if_pos rfl] at hsub
        cases hcE : checkEarlyAdvanceVoting s1 with
        | none =>
          rw [hcE] at hsub
          exact absurd hsub (by simp)
        | some r2 =>
          rw [hcE] at hsub
          obtain rfl := Option.some.inj hsub
          have hfr := checkEarlyAdvanceVoting_frame hcE
          intro i dset hgeti q hq
          have hsets : (r2.1).drawingSets = s1.drawingSets := by rw [hfr]
          have hvotes : (r2.1).votes = s1.votes := by rw [hfr]
          rw [hsets] at hgeti
          rw [hvotes] at hq
          exact hinv1 i dset hgeti q hq

/-- C7 witness: C (no entry in the set) is eligible hence not an author;
author A's vote on `c5State` is rejected as not eligible with the state
unchanged; and the invariant survives C's successful vote on
`c7Fresh`. -/
theorem claim_C7_witness :
    ("C" ∉ c1Set.drawings.map (fun d => d.playerId)) ∧
    validateVote "A" "original_A" c5State =
      some VoteError.playerNotEligible ∧
    submitVote "A" "original_A" true c5State = some (false, c5State, []) ∧
    NoAuthorVoted c7R.2.1 := by
  refine ⟨claim_C7.1 c1Set c5State "C" (by with_unfolding_all decide),
    (claim_C7.2.1 "A" "original_A" c5State c1Set rfl (by decide) rfl
      (by decide)).1,
    (claim_C7.2.1 "A" "original_A" c5State c1Set rfl (by decide) rfl
      (by decide)).2 true, ?_⟩
  apply claim_C7.2.2 "C" "original_A" true c7Fresh c7R ?_ ?_
  · intro i dset hget pid hpid
    simp [c7Fresh, c5State, alookup, keysOf] at hpid
  · with_unfolding_all rfl


theorem drawingStartPhase_players (s : GameState) :
    (drawingStartPhase s).1.players = s.players.map
      (fun q : String × Player =>
        if q.2.stake = 0 then
          (q.1, { q.2 with stake := s.prizePerPlayer,
                           balance := q.2.balance - s.prizePerPlayer })
        else q) := rfl

/-- C8: no player balance ever goes negative.  (1) `add_player` only
admits a player whose balance covers `prize_per_player + entry_fee`, and
stores that balance with stake 0; (2) `start_game` — which deducts the
entry fee from every player and then escrows the prize stake at
drawing-phase start — leaves every balance non-negative whenever every
player entered with balance at least `prize_per_player + entry_fee` and
stake 0; (3) `place_bet` rejects with no state change and no emission any
stake exceeding the bettor's balance; (4) a successful `place_bet`
deducts a stake that was at most the balance, so the stored balance stays
non-negative. -/
theorem claim_C8 :
    (∀ (b : ℚ) (pid un : String) (s s2 : GameState),
      alookup pid s.players = none →
      addPlayer (some b) pid un s = (true, s2) →
      ∃ p, alookup pid s2.players = some p ∧ p.balance = b ∧ p.stake = 0 ∧
        s.prizePerPlayer + s.entryFee ≤ b) ∧
    (∀ (s : GameState), 0 ≤ s.entryFee → 0 ≤ s.prizePerPlayer →
      (∀ q ∈ s.players, s.prizePerPlayer + s.entryFee ≤ q.2.balance ∧
        q.2.stake = 0) →
      ∀ (prompts : List String) (r : GameState × List Event),
        startGame prompts s = some r → ∀ q ∈ r.1.players, 0 ≤ q.2.balance) ∧
    (∀ (pid : String) (stake : ℚ) (ce : Bool) (s : GameState) (p : Player),
      alookup pid s.players = some p → p.balance < stake →
      placeBet pid stake ce s = (false, s, [])) ∧
    (∀ (pid : String) (stake : ℚ) (s : GameState) (p : Player),
      alookup pid s.players = some p →
      (placeBet pid stake false s).1 = true →
      stake ≤ p.balance ∧
      (alookup pid (placeBet pid stake false s).2.1.players).map
        (fun q => q.balance) = some (p.balance - stake) ∧
      0 ≤ p.balance - stake) := by
  refine ⟨?_, ?_, ?_, ?_⟩
  · intro b pid un s s2 hnone hadd
    unfold addPlayer at hadd
    by_cases ht : un.trim = ""
    · rw [if_pos ht] at hadd
      exact absurd hadd (by simp)
    · rw [if_neg ht] at hadd
      simp only [] at hadd
      rw [if_neg (by rw [hnone]; simp)] at hadd
      by_cases hfull : s.maxPlayers ≤ s.players.length
      · rw [if_pos hfull] at hadd
        exact absurd hadd (by simp)
      · rw [if_neg hfull] at hadd
        by_cases hlow : b < s.prizePerPlayer + s.entryFee
        · rw [if_pos hlow] at hadd
          exact absurd hadd (by simp)
        · rw [if_neg hlow] at hadd
          have hs2 := (Prod.mk.injEq _ _ _ _).mp hadd |>.2
          have hlook : alookup pid s2.players = some
              { username := sanitizeUsername un.trim, balance := b, stake := 0,
                connected := true, hasDrawnOriginal := false,
                hasCopied := false, copiesToMake := [], completedCopies := 0,
                votesCast := 0, hasBet := false } := by
            rw [← hs2]
            simp only []
            rw [alookup_append, hnone]
            simp [alookup]
          exact ⟨_, hlook, rfl, rfl, le_of_not_lt hlow⟩
  · intro s hfee hprize hbal prompts r hstart q hq
    unfold startGame at hstart
    by_cases hmin : s.players.length < s.minPlayers
    · rw [if_pos hmin] at hstart
      obtain rfl : (s, ([] : List Event)) = r := Option.some.inj hstart
      obtain ⟨h1, _⟩ := hbal q hq
      have := add_nonneg hprize hfee
      linarith
    · rw [if_neg hmin] at hstart
      simp only [] at hstart
      by_cases hpr : prompts.isEmpty = true
      · rw [if_pos hpr] at hstart
        exact absurd hstart (by simp)
      · rw [if_neg hpr] at hstart
        obtain rfl := Option.some.inj hstart
        rw [drawingStartPhase_players] at hq
        simp only [votingResetForNewGame] at hq
        obtain ⟨q1, hq1, rfl⟩ := List.mem_map.mp hq
        obtain ⟨q0, hq0, rfl⟩ := List.mem_map.mp hq1
        obtain ⟨hb0, hs0⟩ := hbal q0 hq0
        simp only [votingResetForNewGame, hs0, eq_self_iff_true, if_true]
        linarith
  · intro pid stake ce s p hp hlt
    unfold placeBet
    by_cases hph : s.phase ≠ Phase.betting
    · rw [if_pos hph]
    · rw [if_neg hph, hp]
      simp only []
      by_cases hbet : p.hasBet = true
      · rw [if_pos hbet]
      · rw [if_neg hbet]
        by_cases hmin : stake < s.minStake
        · rw [if_pos hmin]
        · rw [if_neg hmin, if_pos hlt]
  · intro pid stake s p hp hsucc
    unfold placeBet at hsucc ⊢
    by_cases hph : s.phase ≠ Phase.betting
    · rw [if_pos hph] at hsucc
      exact absurd hsucc (by simp)
    · rw [if_neg hph, hp] at hsucc ⊢
      simp only [] at hsucc ⊢
      by_cases hbet : p.hasBet = true
      · rw [if_pos hbet] at hsucc
        exact absurd hsucc (by simp)
      · rw [if_neg hbet] at hsucc ⊢
        by_cases hmin : stake < s.minStake
        · rw [if_pos hmin] at hsucc
          exact absurd hsucc (by simp)
        · rw [if_neg hmin] at hsucc ⊢
          by_cases hlt : p.balance < stake
          · rw [if_pos hlt] at hsucc
            exact absurd hsucc (by simp)
          · rw [if_neg hlt] at hsucc ⊢
            rw [if_neg Bool.false_ne_true]
            refine ⟨le_of_not_lt hlt, ?_, ?_⟩
            · simp only []
              rw [alookup_updAssoc_self, hp]
              rfl
            · linarith [le_of_not_lt hlt]

/-- Witness for C8: on the concrete betting-phase room `c8Bet` the bet of
100 by the player holding balance 50 is rejected with the state unchanged
and nothing emitted. -/
theorem claim_C8_witness :
    placeBet "A" 100 false c8Bet = (false, c8Bet, []) :=
  claim_C8.2.2.1 "A" 100 false c8Bet c8Player
    (by simp [c8Bet, alookup]) (by norm_num [c8Player])


theorem filter_ne_length {α β : Type} [DecidableEq α] {l : List (α × β)}
    {k : α} (hnd : KeysNodup l) (hmem : (alookup k l).isSome) :
    (l.filter (fun q => decide (q.1 ≠ k))).length + 1 = l.length := by
  rw [alookup_isSome_iff] at hmem
  unfold KeysNodup at hnd
  induction l with
  | nil => simp [keysOf] at hmem
  | cons q rest ih =>
    obtain ⟨a, b⟩ := q
    have hk : keysOf ((a, b) :: rest) = a :: keysOf rest := rfl
    rw [hk] at hnd hmem
    rw [List.nodup_cons] at hnd
    by_cases h : a = k
    · subst h
      have hrest : rest.filter (fun q => decide (q.1 ≠ a)) = rest := by
        apply List.filter_eq_self.mpr
        intro e he
        have : e.1 ∈ keysOf rest := List.mem_map.mpr ⟨e, he, rfl⟩
        exact decide_eq_true (fun hc => hnd.1 (hc ▸ this))
      rw [List.filter_cons, if_neg (by simp), hrest]
      simp
    · have hm2 : k ∈ keysOf rest := by
        rcases List.mem_cons.mp hmem with h1 | h1
        · exact absurd h1.symm h
        · exact h1
      have := ih hnd.2 hm2
      rw [List.filter_cons, if_pos (by simpa using h)]
      simp only [List.length_cons]
      omega

theorem buildDrawingSet_originalId (sh : List Drawing → List Drawing)
    (s : GameState) (a b : String) :
    (buildDrawingSet sh s a b).originalId = a := rfl

theorem createDrawingSets_originalIds (sh : List Drawing → List Drawing)
    (s : GameState) :
    (createDrawingSets sh s).drawingSets.map (fun ds => ds.originalId)
      = keysOf s.originalDrawings := by
  show (s.originalDrawings.map _).map _ = _
  rw [List.map_map]
  rfl

/-- C9 (amended): when a player disconnects while the remaining roster is
still at least `min_players`, the game continues: nothing is emitted, the
phase is unchanged, and the roster shrinks by exactly one — but, contrary
to the claim's discard clause, `remove_player` leaves `original_drawings`
and `copied_drawings` untouched, so the departed player's submitted
original still yields a drawing set in the voting phase
(`_create_drawing_sets` builds one set per stored original). -/
theorem claim_C9 (pid : String) (s : GameState)
    (hnd : KeysNodup s.players)
    (hmem : (alookup pid s.players).isSome)
    (hmin : s.minPlayers + 1 ≤ s.players.length) :
    removePlayer pid s =
      ({ s with players := s.players.filter (fun q => decide (q.1 ≠ pid)) },
        ([] : List Event)) ∧
    (removePlayer pid s).1.players.length + 1 = s.players.length ∧
    (removePlayer pid s).1.phase = s.phase ∧
    (removePlayer pid s).1.originalDrawings = s.originalDrawings ∧
    (removePlayer pid s).1.copiedDrawings = s.copiedDrawings ∧
    ∀ sh, (createDrawingSets sh (removePlayer pid s).1).drawingSets.map
        (fun ds => ds.originalId) = keysOf s.originalDrawings := by
  have hlen := filter_ne_length hnd hmem
  have hr : removePlayer pid s =
      ({ s with players := s.players.filter (fun q => decide (q.1 ≠ pid)) },
        ([] : List Event)) := by
    unfold removePlayer
    simp only []
    rw [if_pos hmem]
    split
    · rename_i hc
      have h1 : (s.players.filter (fun q => decide (q.1 ≠ pid))).length
          < s.minPlayers := hc.1
      omega
    · rfl
  refine ⟨hr, ?_, ?_, ?_, ?_, ?_⟩
  · rw [hr]
    exact hlen
  · rw [hr]
  · rw [hr]
  · rw [hr]
  · intro sh
    rw [hr, createDrawingSets_originalIds]

/-- C9 counterexample: removing D from `c9State` (three players remain,
exactly the minimum) keeps the phase and decrements the roster as claimed,
but D's submitted original is NOT discarded: it is still stored and still
produces a drawing set, against the claim's discard clause. -/
theorem claim_C9_counterexample :
    (removePlayer "D" c9State).1.phase = Phase.drawing ∧
    (removePlayer "D" c9State).1.players.length = 3 ∧
    (removePlayer "D" c9State).2 = ([] : List Event) ∧
    alookup "D" (removePlayer "D" c9State).1.originalDrawings = some "artD" ∧
    (createDrawingSets id (removePlayer "D" c9State).1).drawingSets.map
      (fun ds => ds.originalId) = ["D"] := by
  refine ⟨?_, ?_, ?_, ?_, ?_⟩ <;> with_unfolding_all rfl

/-- Witness for C9: the amended theorem applied to the concrete
four-player room `c9State`, the departing player being D. -/
theorem claim_C9_witness :
    removePlayer "D" c9State =
      ({ c9State with
          players := c9State.players.filter (fun q => decide (q.1 ≠ "D")) },
        ([] : List Event)) ∧
    (removePlayer "D" c9State).1.players.length + 1 =
      c9State.players.length :=
  ⟨(claim_C9 "D" c9State (by unfold KeysNodup; decide)
      (by with_unfolding_all decide) (by decide)).1,
   (claim_C9 "D" c9State (by unfold KeysNodup; decide)
      (by with_unfolding_all decide) (by decide)).2.1⟩

/-- C10 (amended): `add_player` on an already-present `player_id` — with
a non-empty trimmed username, a precondition the claim omits — returns
True and updates only that player's stored username: the outcome is
independent of the database result, the roster size is unchanged, the
player keeps their balance, stake and flags, and the pre-game balance
snapshot is not repeated. -/
theorem claim_C10 (db db2 : Option ℚ) (pid un : String) (s : GameState)
    (p : Player) (hne : un.trim ≠ "")
    (hp : alookup pid s.players = some p) :
    addPlayer db pid un s =
      (true, { s with
        players := updAssoc pid
            (fun q : Player => { q with username := sanitizeUsername un.trim })
            s.players }) ∧
    addPlayer db pid un s = addPlayer db2 pid un s ∧
    (addPlayer db pid un s).2.players.length = s.players.length ∧
    alookup pid (addPlayer db pid un s).2.players =
      some { p with username := sanitizeUsername un.trim } ∧
    (addPlayer db pid un s).2.playerBalancesBeforeGame =
      s.playerBalancesBeforeGame := by
  have hmain : ∀ d : Option ℚ, addPlayer d pid un s =
      (true, { s with
        players := updAssoc pid
            (fun q : Player => { q with username := sanitizeUsername un.trim })
            s.players }) := by
    intro d
    unfold addPlayer
    simp only []
    rw [if_neg hne, if_pos (by rw [hp]; rfl)]
  refine ⟨hmain db, (hmain db).trans (hmain db2).symm, ?_, ?_, ?_⟩
  · rw [hmain db]
    show (updAssoc pid
        (fun q : Player => { q with username := sanitizeUsername un.trim })
        s.players).length = s.players.length
    unfold updAssoc
    exact List.length_map _ _
  · rw [hmain db]
    show alookup pid (updAssoc pid
        (fun q : Player => { q with username := sanitizeUsername un.trim })
        s.players) = some { p with username := sanitizeUsername un.trim }
    rw [alookup_updAssoc_self, hp]
    rfl
  · rw [hmain db]

/-- C10 counterexample: `add_player` for the already-present player A of
`c8Bet` with a whitespace-only username returns False — not True as the
claim has it — leaving the room unchanged. -/
theorem claim_C10_counterexample :
    (alookup "A" c8Bet.players).isSome = true ∧
    addPlayer (some 100) "A" " " c8Bet = (false, c8Bet) := by
  constructor
  · with_unfolding_all rfl
  · with_unfolding_all rfl

/-- Witness for C10: renaming the already-present player A of `c8Bet`
through `add_player`, identically under database result `some 100` and
under a failing database lookup `none`. -/
theorem claim_C10_witness :
    addPlayer (some 100) "A" "Alice" c8Bet =
      (true, { c8Bet with
        players := updAssoc "A"
            (fun q : Player => { q with username := sanitizeUsername "Alice".trim })
            c8Bet.players }) ∧
    addPlayer (some 100) "A" "Alice" c8Bet =
      addPlayer none "A" "Alice" c8Bet :=
  ⟨(claim_C10 (some 100) none "A" "Alice" c8Bet c8Player
      (by with_unfolding_all decide) (by simp [c8Bet, alookup])).1,
   (claim_C10 (some 100) none "A" "Alice" c8Bet c8Player
      (by with_unfolding_all decide) (by simp [c8Bet, alookup])).2.1⟩

end PixelPlagiarist
